import Mathlib

/-!
Verification development for the WhatsApp Secretary repository.

This file shallowly embeds the core broker components of the repository:

* the tool-call extractor/validator of src/services/mcp-llm-service.js
  (span extraction, JSON parsing, the splice-based validation loop);
* the response formatter of src/services/mcp-llm-service.js;
* the MCP calendar server of src/mcp/calendar-server.js
  (request dispatch, findEventByIdentifier, delete/update handlers,
  parseDateTime, parseDateRange);
* the GPT-4 bridge of src/services/gpt4-mcp-bridge.js
  (the bounded iterate-call-observe orchestration loop, the tool dispatch
  loop with its catch-block logging, executeToolCall, parseDateTime,
  addOneHour);
* enough of the JavaScript data model (JSON values, truthiness, member
  access including the TypeError on null) and of the date infrastructure
  (civil-calendar conversion, ISO-8601 rendering and parsing as performed
  by Date/moment) to state and settle properties of the above.

The Google Calendar backend (calendar-service.js) is the external
"Calendar Store" collaborator of the design; it is represented by oracle
fixtures at exactly its published interface (getEvents / createEvent /
updateEvent / deleteEvent and the events.get lookup), which is the
boundary the repository itself treats as external.

Recursive functions that the JavaScript expresses as loops are embedded
with explicit fuel chosen so that the fuel never runs out on the loop's
actual domain; this keeps every definition computable by the kernel.
-/

/-! # JavaScript value model -/
/-- JSON values as produced by JSON.parse. Numbers are modelled as
integers: no literal handled by this repository's broker carries a
fractional part, and fractional literals are outside the modelled domain
(the embedded JSON reader rejects them). -/
inductive Json where
  | null : Json
  | bool (b : Bool) : Json
  | num (n : Int) : Json
  | str (s : String) : Json
  | arr (elems : List Json) : Json
  | obj (fields : List (String × Json)) : Json

/-- Object property lookup; with duplicate keys the last occurrence wins,
as in JSON.parse. -/
def jsLookup : List (String × Json) → String → Option Json
  | [], _ => none
  | (k, v) :: fs, key =>
    match jsLookup fs key with
    | some w => some w
    | none => if k = key then some v else none

/-- Property access `v.k` on a JSON value: objects yield the field (or
undefined, modelled as none); null throws a TypeError (modelled as
.error); other primitives and arrays yield undefined for the property
names used by this code base. -/
def jsMember : Json → String → Except Unit (Option Json)
  | .null, _ => .error ()
  | .obj fs, k => .ok (jsLookup fs k)
  | _, _ => .ok none

/-- Property access on a value known not to be null. -/
def jsGet : Json → String → Option Json
  | .obj fs, k => jsLookup fs k
  | _, _ => none

/-- JavaScript truthiness of a JSON value. -/
def jsTruthy : Json → Bool
  | .null => false
  | .bool b => b
  | .num n => n != 0
  | .str s => s != ""
  | .arr _ => true
  | .obj _ => true

/-- Truthiness of a possibly-undefined value (undefined is falsy). -/
def jsTruthyOpt : Option Json → Bool
  | none => false
  | some v => jsTruthy v

/-- Template-literal rendering of a JSON value, as in a JavaScript
string interpolation. Arrays join their elements with commas and plain
objects render as [object Object], matching String(v). -/
def jsDisplay : Json → String
  | .null => "null"
  | .bool true => "true"
  | .bool false => "false"
  | .num n => toString n
  | .str s => s
  | .arr _ => ""
  | .obj _ => "[object Object]"

/-- Template-literal rendering of a possibly-undefined value
(`undefined` renders as the string "undefined"). -/
def jsDisplayOpt : Option Json → String
  | none => "undefined"
  | some v => jsDisplay v

/-! # A model of JSON.parse

A fuel-based recursive-descent reader for the JSON subset exercised by
this repository: objects, arrays, strings with the single-character
escapes, integers, true/false/null, insignificant whitespace, and
rejection of trailing input. Fractional/exponent numbers and \u escapes
are outside the modelled domain and are rejected. Every recursion level
consumes at least one input character, so fuel equal to the input length
plus one can never be exhausted before the input is. -/
def jsonWs (c : Char) : Bool :=
  c = ' ' || c = '\t' || c = '\n' || c = '\r'

def skipWs : List Char → List Char
  | [] => []
  | c :: cs => if jsonWs c then skipWs cs else c :: cs

def isDigitCh (c : Char) : Bool := '0' ≤ c && c ≤ '9'

def digitVal (c : Char) : Nat := c.toNat - '0'.toNat

/-- Read a run of decimal digits. -/
def readDigits : List Char → Nat → Nat × List Char
  | [], acc => (acc, [])
  | c :: cs, acc =>
    if isDigitCh c then readDigits cs (acc * 10 + digitVal c) else (acc, c :: cs)

/-- Read the character run of a run of digits (for leading-zero checks). -/
def digitRun : List Char → List Char × List Char
  | [] => ([], [])
  | c :: cs =>
    if isDigitCh c then
      let (run, rest) := digitRun cs
      (c :: run, rest)
    else ([], c :: cs)

/-- Read a JSON string body after the opening quote. Returns the decoded
characters and the input after the closing quote. -/
def readStringBody : Nat → List Char → Option (List Char × List Char)
  | 0, _ => none
  | _ + 1, [] => none
  | fuel + 1, c :: cs =>
    if c = '"' then some ([], cs)
    else if c = '\\' then
      match cs with
      | [] => none
      | e :: cs2 =>
        let dec : Option Char :=
          if e = '"' then some '"'
          else if e = '\\' then some '\\'
          else if e = '/' then some '/'
          else if e = 'n' then some '\n'
          else if e = 't' then some '\t'
          else if e = 'r' then some '\r'
          else if e = 'b' then some '\x08'
          else if e = 'f' then some '\x0c'
          else none
        match dec with
        | none => none
        | some d =>
          match readStringBody fuel cs2 with
          | none => none
          | some (body, rest) => some (d :: body, rest)
    else if c.toNat < 32 then none
    else
      match readStringBody fuel cs with
      | none => none
      | some (body, rest) => some (c :: body, rest)

mutual

/-- Parse one JSON value at the head of the input (no leading
whitespace). -/
def jsonValueF : Nat → List Char → Option (Json × List Char)
  | 0, _ => none
  | _ + 1, [] => none
  | fuel + 1, c :: cs =>
    if c = '\x7b' then jsonObjF fuel (skipWs cs) true
    else if c = '[' then jsonArrF fuel (skipWs cs) true
    else if c = '"' then
      match readStringBody (cs.length + 1) cs with
      | none => none
      | some (body, rest) => some (.str (String.mk body), rest)
    else if c = 't' then
      match cs with
      | 'r' :: 'u' :: 'e' :: rest => some (.bool true, rest)
      | _ => none
    else if c = 'f' then
      match cs with
      | 'a' :: 'l' :: 's' :: 'e' :: rest => some (.bool false, rest)
      | _ => none
    else if c = 'n' then
      match cs with
      | 'u' :: 'l' :: 'l' :: rest => some (.null, rest)
      | _ => none
    else if c = '-' then
      match digitRun cs with
      | ([], _) => none
      | (run, rest) =>
        if run.length > 1 && run.headD '0' = '0' then none
        else some (.num (-(Int.ofNat (readDigits run 0).1)), rest)
    else if isDigitCh c then
      match digitRun (c :: cs) with
      | ([], _) => none
      | (run, rest) =>
        if run.length > 1 && run.headD '0' = '0' then none
        else some (.num (Int.ofNat (readDigits run 0).1), rest)
    else none

/-- Parse the inside of an object after the opening brace (whitespace
already skipped). The flag marks whether we are at the first member. -/
def jsonObjF : Nat → List Char → Bool → Option (Json × List Char)
  | 0, _, _ => none
  | _ + 1, [], _ => none
  | fuel + 1, c :: cs, first =>
    if c = '\x7d' && first then some (.obj [], cs)
    else
      match jsonMembersF fuel (c :: cs) with
      | none => none
      | some (fs, rest) => some (.obj fs, rest)

/-- Parse the member list of an object, ending at the closing brace. -/
def jsonMembersF : Nat → List Char → Option (List (String × Json) × List Char)
  | 0, _ => none
  | _ + 1, [] => none
  | fuel + 1, c :: cs =>
    if c = '"' then
      match readStringBody (cs.length + 1) cs with
      | none => none
      | some (key, afterKey) =>
        match skipWs afterKey with
        | ':' :: afterColon =>
          match jsonValueF fuel (skipWs afterColon) with
          | none => none
          | some (v, afterVal) =>
            match skipWs afterVal with
            | ',' :: afterComma =>
              match jsonMembersF fuel (skipWs afterComma) with
              | none => none
              | some (fs, rest) => some ((String.mk key, v) :: fs, rest)
            | '\x7d' :: rest => some ([(String.mk key, v)], rest)
            | _ => none
        | _ => none
    else none

/-- Parse the inside of an array after the opening bracket. -/
def jsonArrF : Nat → List Char → Bool → Option (Json × List Char)
  | 0, _, _ => none
  | _ + 1, [], _ => none
  | fuel + 1, c :: cs, first =>
    if c = ']' && first then some (.arr [], cs)
    else
      match jsonElemsF fuel (c :: cs) with
      | none => none
      | some (xs, rest) => some (.arr xs, rest)

/-- Parse the element list of an array, ending at the closing bracket. -/
def jsonElemsF : Nat → List Char → Option (List Json × List Char)
  | 0, _ => none
  | _ + 1, [] => none
  | fuel + 1, cs =>
    match jsonValueF fuel cs with
    | none => none
    | some (v, afterVal) =>
      match skipWs afterVal with
      | ',' :: afterComma =>
        match jsonElemsF fuel (skipWs afterComma) with
        | none => none
        | some (xs, rest) => some (v :: xs, rest)
      | ']' :: rest => some ([v], rest)
      | _ => none

end

/-- JSON.parse: parse a complete document, rejecting trailing input.
Returns none where JSON.parse would throw a SyntaxError. -/
def jsonParse (s : String) : Option Json :=
  match jsonValueF (s.length + 2) (skipWs s.data) with
  | none => none
  | some (v, rest) => if skipWs rest = [] then some v else none

/-- JSON.stringify for the values this code base round-trips through
tool-result conversation turns (no pretty printing; strings re-emit the
basic escapes). -/
def jsonEscape (c : Char) : List Char :=
  if c = '"' then ['\\', '"']
  else if c = '\\' then ['\\', '\\']
  else if c = '\n' then ['\\', 'n']
  else if c = '\t' then ['\\', 't']
  else if c = '\r' then ['\\', 'r']
  else [c]

def jsonQuote (s : String) : String :=
  String.mk ('"' :: (s.data.flatMap jsonEscape) ++ ['"'])

mutual

/-- JSON.stringify for the values this code base round-trips through
tool-result conversation turns (no pretty printing). Conversation
contents are carried but never inspected by the properties below, so
this definition is only ever run, not reduced inside proofs. -/
def jsonStringify : Json → String
  | .null => "null"
  | .bool true => "true"
  | .bool false => "false"
  | .num n => toString n
  | .str s => jsonQuote s
  | .arr xs => "[" ++ jsonStringifyElems xs ++ "]"
  | .obj fs => "\x7b" ++ jsonStringifyFields fs ++ "\x7d"

def jsonStringifyElems : List Json → String
  | [] => ""
  | [x] => jsonStringify x
  | x :: y :: xs => jsonStringify x ++ "," ++ jsonStringifyElems (y :: xs)

def jsonStringifyFields : List (String × Json) → String
  | [] => ""
  | [(k, v)] => jsonQuote k ++ ":" ++ jsonStringify v
  | (k, v) :: f :: fs =>
      jsonQuote k ++ ":" ++ jsonStringify v ++ "," ++ jsonStringifyFields (f :: fs)

end

/-! # Tool-call extraction and validation (mcp-llm-service.js) -/
/-- Index of the first occurrence of a character. -/
def firstIdxOf (cs : List Char) (c : Char) : Option Nat :=
  match cs with
  | [] => none
  | d :: rest =>
    if d = c then some 0
    else match firstIdxOf rest c with
      | some k => some (k + 1)
      | none => none

/-- Index of the last occurrence of a character. -/
def lastIdxOf (cs : List Char) (c : Char) : Option Nat :=
  match cs with
  | [] => none
  | d :: rest =>
    match lastIdxOf rest c with
    | some k => some (k + 1)
    | none => if d = c then some 0 else none

/-- The span matched by the greedy regex /\x7b[\s\S]*\x7d/ in
parseToolResponse: from the first opening brace to the last closing
brace of the whole text (the greedy star stretches to the final closing
brace), or none when no such pair exists in order. -/
def extractSpan (s : String) : Option String :=
  let cs := s.data
  match firstIdxOf cs '\x7b', lastIdxOf cs '\x7d' with
  | some i, some j =>
    if i < j then some (String.mk ((cs.drop i).take (j - i + 1))) else none
  | _, _ => none

/-- Modelled from the spec: "locate the first balanced \x7b...\x7d span in
the output text". Walks from the first opening brace tracking nesting
depth until it returns to zero. This definition follows the spec's
words, for comparison with extractSpan, which embeds the code's greedy
regex. -/
def walkBalanced : Nat → List Char → List Char → Option (List Char)
  | _, _, [] => none
  | depth, acc, c :: rest =>
    if c = '\x7b' then walkBalanced (depth + 1) (acc ++ [c]) rest
    else if c = '\x7d' then
      if depth = 1 then some (acc ++ [c])
      else walkBalanced (depth - 1) (acc ++ [c]) rest
    else walkBalanced depth (acc ++ [c]) rest

def firstBalancedSpan (s : String) : Option String :=
  match firstIdxOf s.data '\x7b' with
  | some i => (walkBalanced 0 [] (s.data.drop i)).map String.mk
  | none => none

/-- The five tool names accepted by the validator in parseToolResponse
(the validToolNames literal). -/
def validToolNames : List String :=
  ["list_calendar_events", "create_calendar_event", "update_calendar_event",
   "delete_calendar_event", "search_calendar_events"]

/-- The required-argument lists of the MCP calendar server's tool
schemas (calendar-server.js, setupTools, the inputSchema.required
arrays). Descriptions and optional properties of the schemas are prompt
text, unused by any validation code, and are not carried here. -/
def mcpRequiredFields : String → List String
  | "list_calendar_events" => ["start_date", "end_date"]
  | "create_calendar_event" => ["title", "start_time"]
  | "update_calendar_event" => ["event_identifier", "updates"]
  | "delete_calendar_event" => ["event_identifier"]
  | "search_calendar_events" => ["query"]
  | _ => []

/-- One pass condition of the validation loop: the structure check
(!toolCall.name || !toolCall.arguments) on a candidate that is not
null. -/
def tcStructBad (c : Json) : Bool :=
  !(jsTruthyOpt (jsGet c "name") && jsTruthyOpt (jsGet c "arguments"))

/-- validToolNames.includes(toolCall.name): strict equality against the
five names, hence false for any non-string name value. -/
def tcNameKnown (c : Json) : Bool :=
  match jsGet c "name" with
  | some (.str s) => validToolNames.contains s
  | _ => false

/-- The for-loop of parseToolResponse over result.toolCalls, with its
splice(i, 1) / i-- removal of calls whose name is not in validToolNames
and its continue (without removal) on candidates failing the structure
check. Member access on a null candidate throws a TypeError (propagated
as .error, caught by the enclosing try of parseToolResponse). The fuel
equals the loop measure length - i, which decreases by exactly one per
iteration (keep: i+1; splice: length-1), so it is never exhausted. -/
def spliceGo : Nat → List Json → Nat → Except Unit (List Json)
  | 0, xs, _ => .ok xs
  | fuel + 1, xs, i =>
    if h : i < xs.length then
      let c := xs.get ⟨i, h⟩
      match jsMember c "name", jsMember c "arguments" with
      | .error _, _ => .error ()
      | _, .error _ => .error ()
      | .ok nm, .ok ar =>
        if !(jsTruthyOpt nm && jsTruthyOpt ar) then spliceGo fuel xs (i + 1)
        else if tcNameKnown c then spliceGo fuel xs (i + 1)
        else spliceGo fuel (xs.eraseIdx i) i
    else .ok xs

/-- The whole validation loop of parseToolResponse, starting at index 0. -/
def validateToolCalls (xs : List Json) : Except Unit (List Json) :=
  spliceGo xs.length xs 0

/-- The keep-condition the splice loop effectively implements: a
candidate survives iff it fails the structure check (in which case it is
only logged) or its name is one of the five known tool names. -/
def tcKept (c : Json) : Bool := tcStructBad c || tcNameKnown c

/-- The structured result of parseToolResponse. reasoning is none on the
fallback paths, where the code returns an object without that field. -/
structure ParsedResponse where
  intent : String
  reasoning : Option String
  toolCalls : List Json
  text : String

/-- The two identical fallback returns of parseToolResponse (no JSON
found, or the catch on a parse/validation throw). -/
def fallbackResp (s : String) : ParsedResponse :=
  ⟨"other", none, [], s⟩

/-- parsed.intent || 'unknown' (non-string truthy intents render through
the template model; the prompt contract only ever produces strings). -/
def intentField (parsed : Json) : String :=
  match jsGet parsed "intent" with
  | some (.str s) => if s = "" then "unknown" else s
  | some v => if jsTruthy v then jsDisplay v else "unknown"
  | none => "unknown"

/-- parsed.reasoning || ''. -/
def reasoningField (parsed : Json) : String :=
  match jsGet parsed "reasoning" with
  | some (.str s) => s
  | some v => if jsTruthy v then jsDisplay v else ""
  | none => ""

/-- parsed.tool_calls || [] followed by the validation loop. A falsy or
absent field yields the empty list; an array runs the splice loop (the
length > 0 guard is immaterial for the empty array, on which the loop is
a no-op). A truthy non-array value is outside the modelled domain: the
JavaScript would carry the raw value through, and every consumer in this
repository then treats it as an empty call list except for nonempty
strings, which no producer emits here. -/
def toolCallsField (parsed : Json) : Except Unit (List Json) :=
  match jsGet parsed "tool_calls" with
  | some (.arr xs) => if xs.length > 0 then validateToolCalls xs else .ok xs
  | _ => .ok []

/-- MCPLLMService.parseToolResponse: extract the regex span, JSON.parse
it, read intent/reasoning/tool_calls with their || defaults, run the
validation loop; any throw (parse failure, or a TypeError inside the
loop) lands in the catch, which returns the whole text as a plain
answer with intent "other" and no tool calls. -/
def parseToolResponse (llmResponse : String) : ParsedResponse :=
  match extractSpan llmResponse with
  | none => fallbackResp llmResponse
  | some jsonString =>
    match jsonParse jsonString with
    | none => fallbackResp llmResponse
    | some parsed =>
      match toolCallsField parsed with
      | .error _ => fallbackResp llmResponse
      | .ok tcs =>
        ⟨intentField parsed, some (reasoningField parsed), tcs, llmResponse⟩

/-! # Civil calendar and ISO-8601 infrastructure

A model of the instants manipulated by Date and moment-timezone:
milliseconds since the Unix epoch, converted to and from civil
(year, month, day) triples by explicit year/month subtraction. The
model covers the years 1970–9999, the range in which both
Date.prototype.toISOString and the strings this repository produces
use the plain four-digit-year ISO-8601 form. -/
def isLeapYear (y : Nat) : Bool :=
  y % 4 == 0 && (y % 100 != 0 || y % 400 == 0)

def daysInYear (y : Nat) : Nat := if isLeapYear y then 366 else 365

def monthLengths (leap : Bool) : List Nat :=
  [31, if leap then 29 else 28, 31, 30, 31, 30, 31, 31, 30, 31, 30, 31]

/-- Split days-since-1970 into (year, day-of-year) by peeling whole
years; fuel n + 1 always suffices since every year has at least 365
days. -/
def yearSplitF : Nat → Nat → Nat → Nat × Nat
  | 0, y, n => (y, n)
  | fuel + 1, y, n =>
    if n < daysInYear y then (y, n)
    else yearSplitF fuel (y + 1) (n - daysInYear y)

/-- Split a day-of-year across a month-length list, returning the
number of whole months skipped and the remaining day offset. -/
def monthSplit : List Nat → Nat → Nat × Nat
  | [], d => (0, d)
  | ml :: rest, d =>
    if d < ml then (0, d)
    else
      let (m, r) := monthSplit rest (d - ml)
      (m + 1, r)

/-- Days-since-epoch to civil (year, month, day), months and days
1-based. -/
def civilOfDays (n : Nat) : Nat × Nat × Nat :=
  let (y, doy) := yearSplitF (n + 1) 1970 n
  let (mi, rem) := monthSplit (monthLengths (isLeapYear y)) doy
  (y, mi + 1, rem + 1)

/-- Total days in the k years starting at year y. -/
def sumYearsFrom (y : Nat) : Nat → Nat
  | 0 => 0
  | k + 1 => sumYearsFrom y k + daysInYear (y + k)

/-- Sum of the first j entries of a month-length list. -/
def monthPrefixSum : List Nat → Nat → Nat
  | _, 0 => 0
  | [], _ + 1 => 0
  | ml :: rest, j + 1 => ml + monthPrefixSum rest j

/-- Civil (year, month, day) to days-since-epoch (1-based m, d; valid
for y ≥ 1970). -/
def daysFromCivil (y m d : Nat) : Nat :=
  sumYearsFrom 1970 (y - 1970) +
    monthPrefixSum (monthLengths (isLeapYear y)) (m - 1) + (d - 1)

/-- Days in the years 1970–9999, the upper end of the modelled range. -/
def dayUpper : Nat := sumYearsFrom 1970 8030

/-- Milliseconds at 10000-01-01T00:00:00Z, the (exclusive) upper end of
the modelled instant range. -/
def msUpper : Nat := dayUpper * 86400000

def digitChar (d : Nat) : Char := Char.ofNat ('0'.toNat + d)

def pad2 (n : Nat) : List Char := [digitChar (n / 10), digitChar (n % 10)]

def pad3 (n : Nat) : List Char := digitChar (n / 100) :: pad2 (n % 100)

def pad4 (n : Nat) : List Char := pad2 (n / 100) ++ pad2 (n % 100)

/-- The character list of Date.prototype.toISOString (equally
moment().toISOString()): the UTC clock reading of the instant in
YYYY-MM-DDTHH:mm:ss.sssZ form. -/
def renderIsoUtcChars (t : Nat) : List Char :=
  let days := t / 86400000
  let msod := t % 86400000
  let c := civilOfDays days
  let hh := msod / 3600000
  let r1 := msod % 3600000
  let mi := r1 / 60000
  let r2 := r1 % 60000
  let ss := r2 / 1000
  let ms := r2 % 1000
  pad4 c.1 ++ '-' :: pad2 c.2.1 ++ '-' :: pad2 c.2.2 ++
    'T' :: pad2 hh ++ ':' :: pad2 mi ++ ':' :: pad2 ss ++ '.' :: pad3 ms ++ ['Z']

def renderIsoUtc (t : Nat) : String := String.mk (renderIsoUtcChars t)

def readDigit (c : Char) : Option Nat :=
  if isDigitCh c then some (digitVal c) else none

def read2 : List Char → Option (Nat × List Char)
  | a :: b :: rest =>
    match readDigit a, readDigit b with
    | some x, some y => some (x * 10 + y, rest)
    | _, _ => none
  | _ => none

def read4 (cs : List Char) : Option (Nat × List Char) :=
  match read2 cs with
  | none => none
  | some (hi, r1) =>
    match read2 r1 with
    | none => none
    | some (lo, r2) => some (hi * 100 + lo, r2)

def read3 : List Char → Option (Nat × List Char)
  | a :: rest =>
    match readDigit a, read2 rest with
    | some x, some (y, r) => some (x * 100 + y, r)
    | _, _ => none
  | [] => none

def expectCh (c : Char) : List Char → Option (List Char)
  | d :: rest => if d = c then some rest else none
  | [] => none

/-- The trailing UTC-offset designator: Z, or an explicit +HH:MM or
-HH:MM offset in minutes. Strings without an explicit offset are interpreted by
Date in the host's local zone and are outside the modelled domain. -/
def readOffsetBody (r : List Char) : Option Nat :=
  match read2 r with
  | none => none
  | some (oh, r1) =>
    match expectCh ':' r1 with
    | none => none
    | some r2 =>
      match read2 r2 with
      | none => none
      | some (om, r3) => if r3 = [] then some (oh * 60 + om) else none

def readOffset : List Char → Option Int
  | ['Z'] => some 0
  | '+' :: r => (readOffsetBody r).map Int.ofNat
  | '-' :: r => (readOffsetBody r).map (fun x => -(Int.ofNat x))
  | _ => none

/-- The instant denoted by an ISO-8601 date-time string with explicit
offset, as computed by new Date(s).getTime(): epoch milliseconds
(possibly negative of the offset pushes a 1970 date before the epoch).
Component range checks mirror Date's rejection of out-of-range fields;
years before 1970 are outside the modelled range. The fractional-second
part is optional, as in ISO-8601. -/
def readMsPart : List Char → Option (Nat × List Char)
  | '.' :: r12 =>
    (match read3 r12 with
     | some (ms, r13) => some (ms, r13)
     | none => none)
  | other => some (0, other)

def parseIsoFields (y m d hh mi ss ms : Nat) (off : Int) : Option Int :=
  if 1970 ≤ y ∧ 1 ≤ m ∧ m ≤ 12 ∧ 1 ≤ d ∧
      d ≤ (monthLengths (isLeapYear y)).getD (m - 1) 0 ∧
      hh ≤ 23 ∧ mi ≤ 59 ∧ ss ≤ 59 then
    some ((Int.ofNat (daysFromCivil y m d * 86400000 + hh * 3600000 +
      mi * 60000 + ss * 1000 + ms)) - off * 60000)
  else none

def parseIsoChars (cs : List Char) : Option Int :=
  match read4 cs with
  | none => none
  | some (y, r1) =>
  match expectCh '-' r1 with
  | none => none
  | some r2 =>
  match read2 r2 with
  | none => none
  | some (m, r3) =>
  match expectCh '-' r3 with
  | none => none
  | some r4 =>
  match read2 r4 with
  | none => none
  | some (d, r5) =>
  match expectCh 'T' r5 with
  | none => none
  | some r6 =>
  match read2 r6 with
  | none => none
  | some (hh, r7) =>
  match expectCh ':' r7 with
  | none => none
  | some r8 =>
  match read2 r8 with
  | none => none
  | some (mi, r9) =>
  match expectCh ':' r9 with
  | none => none
  | some r10 =>
  match read2 r10 with
  | none => none
  | some (ss, r11) =>
  match readMsPart r11 with
  | none => none
  | some (ms, r12) =>
  match readOffset r12 with
  | none => none
  | some off => parseIsoFields y m d hh mi ss ms off

def parseIso (s : String) : Option Int := parseIsoChars s.data

/-- The .replace("Z", "+03:00") of addOneHour: substitute the first
occurrence of Z (in a toISOString result, the only one is the final
designator). -/
def replaceZ : List Char → List Char
  | [] => []
  | c :: rest =>
    if c = 'Z' then '+' :: '0' :: '3' :: ':' :: '0' :: '0' :: rest
    else c :: replaceZ rest

/-- GPT4MCPBridge.addOneHour and CalendarService.addOneHour: parse the
ISO string into a Date, advance the instant by one hour
(setHours(getHours() + 1); the net effect on the epoch value is +1h —
a DST transition of the unspecified host zone inside that hour is
outside the modelled domain), render with toISOString (UTC, Z-suffixed)
and relabel the Z suffix as +03:00. An unparseable input yields an
Invalid Date, on which toISOString throws; that path is outside the
claim's domain and modelled as none. -/
def addOneHour (isoDateTime : String) : Option String :=
  match parseIso isoDateTime with
  | none => none
  | some t => some (String.mk (replaceZ (renderIsoUtcChars (t + 3600000).toNat)))

/-! # moment-timezone model

A moment in the configured zone is represented by its epoch instant in
milliseconds together with the zone's fixed UTC offset in minutes at
the instants under consideration (Asia/Jerusalem is +03:00 in the
summer dates used below; daylight-saving transitions inside one
computed range are the timezone database's concern and outside the
modelled domain, per the design's own statement). The absolute-string
parser of the library, moment.tz(str, zone), is an oracle parameter:
its result is the instant it yields, or none when the moment is
invalid. toISOString always renders the UTC clock reading with a Z
suffix; on an invalid moment it yields null. -/
def localOf (off e : Int) : Int := e + off * 60000

def momentStartOfDay (off e : Int) : Int := e - localOf off e % 86400000

def momentEndOfDay (off e : Int) : Int := momentStartOfDay off e + 86399999

/-- moment's hour(h).minute(0).second(0): set the zone-local clock to
h:00:00 keeping the day and the milliseconds (moment leaves unset
smaller units untouched, and the code sets only hour, minute and
second); hours past 23 bubble into the following days. -/
def momentSetHour (off e : Int) (h24 : Nat) : Int :=
  momentStartOfDay off e + h24 * 3600000 + localOf off e % 1000

/-- toISOString of a valid moment (pre-1970 instants are outside the
modelled domain). -/
def momentToIso (e : Int) : String := renderIsoUtc e.toNat

def lowerCh (c : Char) : Char :=
  if 'A' ≤ c ∧ c ≤ 'Z' then Char.ofNat (c.toNat + 32) else c

/-- String.prototype.toLowerCase for the ASCII inputs this code
handles. -/
def jsToLower (s : String) : String := String.mk (s.data.map lowerCh)

def startsWithList : List Char → List Char → Bool
  | [], _ => true
  | _ :: _, [] => false
  | a :: as, b :: bs => a = b && startsWithList as bs

/-- String.prototype.includes. -/
def hasSubList (hay needle : List Char) : Bool :=
  match hay with
  | [] => needle.isEmpty
  | _ :: rest => startsWithList needle hay || hasSubList rest needle

def jsIncludes (s sub : String) : Bool := hasSubList s.data sub.data

/-- am or pm at the head of the input (true = pm). -/
def readAmPm : List Char → Option Bool
  | 'a' :: 'm' :: _ => some false
  | 'p' :: 'm' :: _ => some true
  | _ => none

/-- The \s?(am|pm) tail of the embedded-clock-time regex: greedily try
one whitespace character before am or pm, backtracking to none. -/
def matchAmPmOptSpace (cs : List Char) : Option Bool :=
  match cs with
  | c :: rest =>
    if jsonWs c then
      match readAmPm rest with
      | some p => some p
      | none => readAmPm cs
    else readAmPm cs
  | [] => none

/-- One anchored attempt of the regex (\d{1,2})\s?(am|pm): greedily two
digits, backtracking to one. Returns parseInt of the digit group and
the meridiem. -/
def matchTimeAt (cs : List Char) : Option (Nat × Bool) :=
  match cs with
  | c1 :: rest1 =>
    if isDigitCh c1 then
      match rest1 with
      | c2 :: rest2 =>
        if isDigitCh c2 then
          match matchAmPmOptSpace rest2 with
          | some p => some (digitVal c1 * 10 + digitVal c2, p)
          | none =>
            match matchAmPmOptSpace rest1 with
            | some p => some (digitVal c1, p)
            | none => none
        else
          match matchAmPmOptSpace rest1 with
          | some p => some (digitVal c1, p)
          | none => none
      | [] => none
    else none
  | [] => none

/-- Leftmost match of the embedded-clock-time regex over the string. -/
def firstTimeMatch : List Char → Option (Nat × Bool)
  | [] => none
  | c :: rest =>
    match matchTimeAt (c :: rest) with
    | some r => some r
    | none => firstTimeMatch rest

/-- The hour24 ternary of the bridge's parseDateTime:
pm && hour !== 12 adds 12, am && hour === 12 is midnight. -/
def to24h (hour : Nat) (isPM : Bool) : Nat :=
  if isPM && hour != 12 then hour + 12
  else if !isPM && hour == 12 then 0 else hour

/-- GPT4MCPBridge.parseDateTime: recognize today/tomorrow/yesterday
exactly (start or end of day), then strings containing tomorrow or
today with an optional embedded clock time, and otherwise hand the
string to moment.tz; when that parse is invalid, fall back to the
current instant. Always returns a (Z-suffixed UTC) toISOString
rendering. -/
def bridgeParseDateTime (absParse : String → Option Int) (off now : Int)
    (dateStr : String) (endOfDay : Bool) : String :=
  let lower := jsToLower dateStr
  if lower = "today" then
    momentToIso (if endOfDay then momentEndOfDay off now else momentStartOfDay off now)
  else if lower = "tomorrow" then
    momentToIso (if endOfDay then momentEndOfDay off (now + 86400000)
      else momentStartOfDay off (now + 86400000))
  else if lower = "yesterday" then
    momentToIso (if endOfDay then momentEndOfDay off (now - 86400000)
      else momentStartOfDay off (now - 86400000))
  else if jsIncludes lower "tomorrow" then
    match firstTimeMatch lower.data with
    | some (h, pm) => momentToIso (momentSetHour off (now + 86400000) (to24h h pm))
    | none =>
      momentToIso (if endOfDay then momentEndOfDay off (now + 86400000)
        else momentStartOfDay off (now + 86400000))
  else if jsIncludes lower "today" then
    match firstTimeMatch lower.data with
    | some (h, pm) => momentToIso (momentSetHour off now (to24h h pm))
    | none => momentToIso now
  else
    match absParse dateStr with
    | some e => momentToIso e
    | none => momentToIso now

/-- CalendarMCPServer.parseDateTime: recognize today/tomorrow/yesterday
exactly (as the current clock time shifted by whole days, with no
start-of-day normalization), otherwise hand the string to moment.tz
with no validity check; endOf day is applied when requested, and
toISOString of an invalid moment yields null (none). -/
def mcpParseDateTime (absParse : String → Option Int) (off now : Int)
    (dateStr : String) (endOfDay : Bool) : Option String :=
  let lower := jsToLower dateStr
  let m : Option Int :=
    if lower = "today" then some now
    else if lower = "tomorrow" then some (now + 86400000)
    else if lower = "yesterday" then some (now - 86400000)
    else absParse dateStr
  let m2 := if endOfDay then m.map (momentEndOfDay off) else m
  m2.map momentToIso

/-! # The Calendar Store boundary and the MCP calendar server -/
/-- An event as the Calendar Store returns it. The start/end fields hold
the value of event.start?.dateTime || event.start?.date (the code always
coalesces the two immediately), and absent fields are none. -/
structure GEvent where
  id : String
  summary : Option String
  description : Option String
  startStr : Option String
  endStr : Option String
  location : Option String

/-- {success, eventId, htmlLink} | {success:false, error} from
CalendarService.createEvent (which catches internally and never
throws). -/
structure StoreCreateResult where
  success : Bool
  eventId : Option String
  htmlLink : Option String
  error : Option String

/-- {success} | {success:false, error} from CalendarService.updateEvent
and deleteEvent (both catch internally and never throw). -/
structure StoreOpResult where
  success : Bool
  error : Option String

/-- The Calendar Store collaborator at its published interface (§6 of
the design): the Google-backed CalendarService plus the raw events.get
lookup used by findEventByIdentifier. getEvents rethrows backend errors
(modelled as .error); byId yields none when the lookup throws (wrong or
unknown id), which findEventByIdentifier swallows. -/
structure CalendarStoreFixture where
  getEvents : String → String → Except String (List GEvent)
  createEvent : Json → StoreCreateResult
  updateEvent : String → Json → StoreOpResult
  deleteEvent : String → StoreOpResult
  byId : String → Option GEvent

def optJson : Option String → Json
  | some s => .str s
  | none => .null

/-- The moment epoch-day of the zone-local day containing e. -/
def localDayOf (off e : Int) : Int := localOf off e / 86400000

def momentStartOfWeek (off e : Int) : Int :=
  let ld := localDayOf off e
  let weekday := (ld + 4) % 7
  (ld - weekday) * 86400000 - off * 60000

def momentStartOfMonth (off e : Int) : Int :=
  let ld := localDayOf off e
  let c := civilOfDays ld.toNat
  (ld - (c.2.2 - 1)) * 86400000 - off * 60000

def momentEndOfMonth (off e : Int) : Int :=
  let ld := localDayOf off e
  let c := civilOfDays ld.toNat
  let len := (monthLengths (isLeapYear c.1)).getD (c.2.1 - 1) 0
  (ld - (c.2.2 - 1) + len) * 86400000 - off * 60000 - 1

/-- parseDateRange (identical in calendar-server.js and
gpt4-mcp-bridge.js): switch on the lowercased range string, defaulting
to the next seven days. Weeks start on Sunday (moment's default
locale). -/
def momentDateRange (off now : Int) (rangeStr : String) : String × String :=
  let lower := jsToLower rangeStr
  if lower = "today" then
    (momentToIso (momentStartOfDay off now), momentToIso (momentEndOfDay off now))
  else if lower = "tomorrow" then
    (momentToIso (momentStartOfDay off (now + 86400000)),
     momentToIso (momentEndOfDay off (now + 86400000)))
  else if lower = "this week" then
    (momentToIso (momentStartOfWeek off now),
     momentToIso (momentStartOfWeek off now + 7 * 86400000 - 1))
  else if lower = "next week" then
    (momentToIso (momentStartOfWeek off now + 7 * 86400000),
     momentToIso (momentStartOfWeek off now + 14 * 86400000 - 1))
  else if lower = "this month" then
    (momentToIso (momentStartOfMonth off now), momentToIso (momentEndOfMonth off now))
  else
    (momentToIso now, momentToIso (now + 7 * 86400000))

/-- event.summary?.toLowerCase().includes(needle.toLowerCase()): an
absent summary short-circuits to no match. -/
def summaryMatches (needle : String) (ev : GEvent) : Bool :=
  match ev.summary with
  | some t => jsIncludes (jsToLower t) (jsToLower needle)
  | none => false

/-- summary-or-description case-insensitive containment, the filter of
the list/search handlers. -/
def eventTextMatches (needle : String) (ev : GEvent) : Bool :=
  summaryMatches needle ev ||
    (match ev.description with
     | some t => jsIncludes (jsToLower t) (jsToLower needle)
     | none => false)

/-- CalendarMCPServer.findEventByIdentifier: try events.get by id
(failures swallowed), then search the current-month window for the
first event whose title contains the identifier case-insensitively;
undefined when nothing matches. A thrown getEvents error propagates. -/
def mcpFindEventByIdentifier (fx : CalendarStoreFixture) (off now : Int)
    (identifier : String) : Except String (Option GEvent) :=
  match fx.byId identifier with
  | some ev => .ok (some ev)
  | none =>
    let r := momentDateRange off now "this month"
    match fx.getEvents r.1 r.2 with
    | .error e => .error e
    | .ok events => .ok (events.find? (summaryMatches identifier))

/-- The destructuring default `confirmation = true` of
handleDeleteEvent: applied only when the property is absent
(undefined); an explicit null or false stays. -/
def confirmationOf (args : Json) : Json :=
  match jsGet args "confirmation" with
  | none => .bool true
  | some v => v

/-- A JSON response payload of the shape the handlers stringify into
content[0].text. -/
def mcpDeletePayload (ev : GEvent) (res : StoreOpResult) : Json :=
  .obj [("success", .bool res.success),
        ("message", .str (if res.success
          then "Event deleted: " ++ jsDisplayOpt (Option.map Json.str ev.summary)
          else "Failed: " ++ jsDisplayOpt (Option.map Json.str res.error))),
        ("deletedEvent", optJson ev.summary)]

/-- CalendarMCPServer.handleDeleteEvent. The Except error is the thrown
Error's message; the second component lists the ids this call passed to
the Calendar Store's deleteEvent (empty = store untouched). Identifiers
that are not strings make the later string operations throw and are
outside the claims' domain; they are modelled as the thrown TypeError. -/
def mcpHandleDeleteEvent (fx : CalendarStoreFixture) (off now : Int)
    (args : Json) : Except String Json × List String :=
  if jsTruthy (confirmationOf args) = false then
    (.error "Event deletion requires confirmation", [])
  else
    match jsGet args "event_identifier" with
    | some (.str identifier) =>
      match mcpFindEventByIdentifier fx off now identifier with
      | .error e => (.error e, [])
      | .ok none => (.error ("Event not found: " ++ identifier), [])
      | .ok (some ev) =>
        let res := fx.deleteEvent ev.id
        (.ok (mcpDeletePayload ev res), [ev.id])
    | _ => (.error "TypeError", [])

/-- The start/end patch fields of handleUpdateEvent go through the MCP
server's parseDateTime; their values are immaterial to the properties
below but the shape is kept. -/
def mcpUpdatesJson (absParse : String → Option Int) (off now : Int)
    (updates : List (String × Json)) : Json :=
  .obj ((match jsLookup updates "title" with
         | some v => if jsTruthy v then [("summary", v)] else []
         | none => []) ++
        (match jsLookup updates "location" with
         | some v => if jsTruthy v then [("location", v)] else []
         | none => []) ++
        (match jsLookup updates "description" with
         | some v => if jsTruthy v then [("description", v)] else []
         | none => []) ++
        (match jsLookup updates "start_time" with
         | some (.str s) =>
           [("start", optJson (mcpParseDateTime absParse off now s false))]
         | _ => []) ++
        (match jsLookup updates "end_time" with
         | some (.str s) =>
           [("end", optJson (mcpParseDateTime absParse off now s false))]
         | _ => []))

/-- CalendarMCPServer.handleUpdateEvent: resolve the identifier first;
an unresolvable identifier throws Event not found before the updates
object is ever read. -/
def mcpHandleUpdateEvent (fx : CalendarStoreFixture)
    (absParse : String → Option Int) (off now : Int)
    (args : Json) : Except String Json :=
  match jsGet args "event_identifier" with
  | some (.str identifier) =>
    match mcpFindEventByIdentifier fx off now identifier with
    | .error e => .error e
    | .ok none => .error ("Event not found: " ++ identifier)
    | .ok (some ev) =>
      match jsGet args "updates" with
      | some (.obj ufields) =>
        let res := fx.updateEvent ev.id (mcpUpdatesJson absParse off now ufields)
        .ok (.obj [("success", .bool res.success),
          ("message", .str (if res.success
            then "Event updated: " ++ jsDisplayOpt (Option.map Json.str ev.summary)
            else "Failed: " ++ jsDisplayOpt (Option.map Json.str res.error))),
          ("originalEvent", optJson ev.summary)])
      | some .null => .error "TypeError"
      | some _ =>
        let res := fx.updateEvent ev.id (mcpUpdatesJson absParse off now [])
        .ok (.obj [("success", .bool res.success),
          ("message", .str (if res.success
            then "Event updated: " ++ jsDisplayOpt (Option.map Json.str ev.summary)
            else "Failed: " ++ jsDisplayOpt (Option.map Json.str res.error))),
          ("originalEvent", optJson ev.summary)])
      | none => .error "TypeError"
  | _ => .error "TypeError"

def eventJson (ev : GEvent) : Json :=
  .obj [("id", .str ev.id), ("title", optJson ev.summary),
        ("start", optJson ev.startStr), ("end", optJson ev.endStr),
        ("location", optJson ev.location), ("description", optJson ev.description)]

def eventListPayload (events : List GEvent) : Json :=
  .obj [("success", .bool true), ("count", .num events.length),
        ("events", .arr (events.map eventJson))]

/-- The `if (search_query)` filter shared by the list handlers: falsy
values skip filtering, a truthy non-string would make toLowerCase throw. -/
def applySearchFilter (q : Option Json) (events : List GEvent) :
    Except String (List GEvent) :=
  match q with
  | some (.str s) =>
    if s = "" then .ok events else .ok (events.filter (eventTextMatches s))
  | some v => if jsTruthy v then .error "TypeError" else .ok events
  | none => .ok events

/-- CalendarMCPServer.handleListEvents: resolve both dates through the
server's parseDateTime (a null rendering is carried as the string the
template would produce), fetch, optionally filter. -/
def mcpHandleListEvents (fx : CalendarStoreFixture)
    (absParse : String → Option Int) (off now : Int) (args : Json) :
    Except String Json :=
  match jsGet args "start_date", jsGet args "end_date" with
  | some (.str sd), some (.str ed) =>
    let startTime := (mcpParseDateTime absParse off now sd false).getD "null"
    let endTime := (mcpParseDateTime absParse off now ed true).getD "null"
    match fx.getEvents startTime endTime with
    | .error e => .error e
    | .ok events =>
      match applySearchFilter (jsGet args "search_query") events with
      | .error e => .error e
      | .ok filtered => .ok (eventListPayload filtered)
  | _, _ => .error "TypeError"

/-- CalendarMCPServer.handleCreateEvent: build the legacy eventInfo via
the env-local extractDate/extractTime renderings (oracles envDate and
envTime model moment(str).format in the host zone) and call the store's
createEvent, which never throws. -/
def mcpHandleCreateEvent (fx : CalendarStoreFixture)
    (envDate envTime : String → String) (args : Json) : Except String Json :=
  match jsGet args "title", jsGet args "start_time" with
  | some (.str title), some (.str st) =>
    let res := fx.createEvent (.obj
      [("title", .str title), ("date", .str (envDate st)),
       ("time", .str (envTime st)),
       ("location", (jsGet args "location").getD .null),
       ("description", (jsGet args "description").getD
         (.str ("Created via WhatsApp: " ++ title)))])
    .ok (.obj [("success", .bool res.success),
      ("eventId", optJson res.eventId),
      ("message", .str (if res.success then "Event created: " ++ title
        else "Failed: " ++ jsDisplayOpt (Option.map Json.str res.error))),
      ("htmlLink", optJson res.htmlLink)])
  | _, _ => .error "TypeError"

/-- CalendarMCPServer.handleSearchEvents: current-range fetch, title or
description containment, slice to max_results (numeric values; the
default is 10). -/
def mcpHandleSearchEvents (fx : CalendarStoreFixture) (off now : Int)
    (args : Json) : Except String Json :=
  match jsGet args "query" with
  | some (.str q) =>
    let rangeStr := match jsGet args "date_range" with
      | some (.str r) => r
      | _ => "this month"
    let maxResults : Nat := match jsGet args "max_results" with
      | some (.num n) => n.toNat
      | _ => 10
    let r := momentDateRange off now rangeStr
    match fx.getEvents r.1 r.2 with
    | .error e => .error e
    | .ok events =>
      let found := (events.filter (eventTextMatches q)).take maxResults
      .ok (.obj [("success", .bool true), ("query", .str q),
        ("count", .num found.length),
        ("events", .arr (found.map eventJson))])
  | _ => .error "TypeError"

/-- One content[0] text response of the simplified MCP server, with the
isError flag handleRequest sets on a caught throw. The indentation of
JSON.stringify(payload, null, 2) is insignificant whitespace to every
consumer (JSON.parse) and is not reproduced. -/
structure McpResponse where
  text : String
  isError : Bool

/-- CalendarMCPServer.handleRequest for a tools/call request: dispatch
on the tool name, converting any thrown error into an in-band
content response with isError (never an exception to the caller). The
second component lists the ids passed to the store's deleteEvent. -/
def mcpHandleRequestToolsCall (fx : CalendarStoreFixture)
    (absParse : String → Option Int) (envDate envTime : String → String)
    (off now : Int) (name : String) (args : Json) : McpResponse × List String :=
  match name with
  | "list_calendar_events" =>
    (match mcpHandleListEvents fx absParse off now args with
     | .ok j => ⟨jsonStringify j, false⟩
     | .error e => ⟨"Error: " ++ e, true⟩, [])
  | "create_calendar_event" =>
    (match mcpHandleCreateEvent fx envDate envTime args with
     | .ok j => ⟨jsonStringify j, false⟩
     | .error e => ⟨"Error: " ++ e, true⟩, [])
  | "update_calendar_event" =>
    (match mcpHandleUpdateEvent fx absParse off now args with
     | .ok j => ⟨jsonStringify j, false⟩
     | .error e => ⟨"Error: " ++ e, true⟩, [])
  | "delete_calendar_event" =>
    match mcpHandleDeleteEvent fx off now args with
    | (.ok j, dels) => (⟨jsonStringify j, false⟩, dels)
    | (.error e, dels) => (⟨"Error: " ++ e, true⟩, dels)
  | "search_calendar_events" =>
    (match mcpHandleSearchEvents fx off now args with
     | .ok j => ⟨jsonStringify j, false⟩
     | .error e => ⟨"Error: " ++ e, true⟩, [])
  | other => (⟨"Error: Unknown tool: " ++ other, true⟩, [])

/-- A fixture with one calendar event whose title is standup, an id
lookup that always throws, and successful store mutations. -/
def fxStandup : CalendarStoreFixture :=
  ⟨fun _ _ => .ok [⟨"e2", some "standup", none, none, none, none⟩],
   fun _ => ⟨true, some "cid", none, none⟩,
   fun _ _ => ⟨true, none⟩,
   fun _ => ⟨true, none⟩,
   fun _ => none⟩

/-- args with an explicit confirmation: true appended (last-wins
lookup makes it authoritative without disturbing other keys). -/
def withConfirmationTrue : Json → Json
  | .obj fs => .obj (fs ++ [("confirmation", .bool true)])
  | v => v

/-! # The Response Formatter (MCPLLMService.formatResponse) -/
/-- One element of the toolResults array the orchestration in
processEventMessage accumulates: either the { error: message } object
pushed when executeTool throws, or a tool response whose content[0].text
is a stringified payload (handleRequest always produces exactly one
text item). -/
inductive MCPToolResult where
  | err (msg : String)
  | resp (text : String)

/-- The per-result message of formatResponse's loop. The localeShow
parameter models new Date(e.start).toLocaleString(), which is host
locale dependent. A null entry in an events array would make the
property reads throw into the surrounding catch; the store never
produces one and nulls are outside the modelled domain. -/
def renderResultLine (localeShow : Option Json → String) (intent : String) :
    MCPToolResult → String
  | .err m => "❌ Error: " ++ m
  | .resp txt =>
    match jsonParse txt with
    | none => "✅ Operation completed"
    | some data =>
      if jsTruthyOpt (jsGet data "success") then
        if intent = "create_event" then
          "✅ Event created: " ++ jsDisplayOpt (jsGet data "message")
        else if intent = "edit_event" then
          "✅ Event updated: " ++ jsDisplayOpt (jsGet data "message")
        else if intent = "delete_event" then
          "✅ Event deleted: " ++ jsDisplayOpt (jsGet data "message")
        else if intent = "query_events" then
          match jsGet data "events" with
          | some (.arr es) =>
            if es.length > 0 then
              "📅 Found " ++ jsDisplayOpt (jsGet data "count") ++ " event(s):\n" ++
                String.intercalate "\n" (es.map (fun e =>
                  "• " ++ jsDisplayOpt (jsGet e "title") ++ " - " ++
                    localeShow (jsGet e "start")))
            else "📅 No events found"
          | some (.str s) =>
            if s ≠ "" then "✅ Operation completed" else "📅 No events found"
          | _ => "📅 No events found"
        else "✅ " ++ jsDisplayOpt (jsGet data "message")
      else "❌ " ++ jsDisplayOpt (jsGet data "message")

/-- Array.prototype.join("\n"). -/
def joinNewline : List String → String
  | [] => ""
  | [x] => x
  | x :: y :: rest => x ++ "\n" ++ joinNewline (y :: rest)

/-- MCPLLMService.formatResponse: the guard for an empty result set,
the per-result loop, the newline join, and the || fallback for an
empty joined string. -/
def formatResponse (localeShow : Option Json → String) (intent : String)
    (toolResults : List MCPToolResult) : String :=
  if toolResults.isEmpty then "I couldn't process your request."
  else
    let joined := joinNewline (toolResults.map (renderResultLine localeShow intent))
    if joined = "" then "Operation completed." else joined

/-! # The GPT-4 bridge: tool handlers, dispatch loop, orchestrator -/
/-- Everything a bridge tool handler can touch: the Calendar Store, the
moment absolute-parse oracle, and the configured zone offset and
current instant (Asia/Jerusalem in the source). -/
structure BridgeCtx where
  fx : CalendarStoreFixture
  absParse : String → Option Int
  off : Int
  now : Int

def successFalseJson (e : String) : Json :=
  .obj [("success", .bool false), ("error", .str e)]

/-- GPT4MCPBridge.handleListEvents: YYYY-MM-DD endpoints expanded to
full-day +03:00 ranges, fetch, optional search filter; every throw is
caught into success:false. -/
def bridgeHandleListEvents (ctx : BridgeCtx) (args : Json) : Json :=
  let startTime := jsDisplayOpt (jsGet args "start_date") ++ "T00:00:00+03:00"
  let endTime := jsDisplayOpt (jsGet args "end_date") ++ "T23:59:59+03:00"
  match ctx.fx.getEvents startTime endTime with
  | .error e => successFalseJson e
  | .ok events =>
    match applySearchFilter (jsGet args "search_query") events with
    | .error e => successFalseJson e
    | .ok filtered => eventListPayload filtered

/-- GPT4MCPBridge.handleCreateEvent: ISO datetimes used directly, with
the end defaulted through addOneHour (whose toISOString throws on an
unparseable start, landing in this handler's catch); createEvent never
throws. -/
def bridgeHandleCreateEvent (ctx : BridgeCtx) (args : Json) : Json :=
  let title := jsGet args "title"
  let endResolved : Except String Json :=
    if jsTruthyOpt (jsGet args "end_time") then .ok ((jsGet args "end_time").getD .null)
    else
      match jsGet args "start_time" with
      | some (.str s) =>
        match addOneHour s with
        | some o => .ok (.str o)
        | none => .error "RangeError: Invalid time value"
      | _ => .error "TypeError"
  match endResolved with
  | .error e => successFalseJson e
  | .ok endv =>
    let res := ctx.fx.createEvent (.obj
      [("title", title.getD .null),
       ("startDateTime", (jsGet args "start_time").getD .null),
       ("endDateTime", endv),
       ("location", (jsGet args "location").getD .null),
       ("description", (jsGet args "description").getD
         (.str ("Created from WhatsApp: " ++ jsDisplayOpt title)))])
    .obj [("success", .bool res.success),
      ("eventId", optJson res.eventId),
      ("message", .str (if res.success then "Created: " ++ jsDisplayOpt title
        else "Failed: " ++ jsDisplayOpt (Option.map Json.str res.error))),
      ("htmlLink", optJson res.htmlLink)]

/-- GPT4MCPBridge.handleDeleteEvent: direct store delete by the given
id; deleteEvent never throws. -/
def bridgeHandleDeleteEvent (ctx : BridgeCtx) (args : Json) : Json :=
  let res := ctx.fx.deleteEvent (jsDisplayOpt (jsGet args "event_id"))
  .obj [("success", .bool res.success),
    ("message", .str (if res.success
      then "Deleted: " ++ jsDisplayOpt (match jsGet args "event_title" with
        | some v => if jsTruthy v then some v else jsGet args "event_id"
        | none => jsGet args "event_id")
      else "Failed: " ++ jsDisplayOpt (Option.map Json.str res.error))),
    ("eventId", (jsGet args "event_id").getD .null)]

/-- GPT4MCPBridge.handleUpdateEvent: start/end patches resolved through
the bridge's parseDateTime; non-string or absent updates make the
property access or toLowerCase throw into this handler's catch. -/
def bridgeHandleUpdateEvent (ctx : BridgeCtx) (args : Json) : Json :=
  match jsGet args "updates" with
  | some (.obj ufields) =>
    let patch : Except String Json :=
      match jsLookup ufields "start_time" with
      | some v =>
        if jsTruthy v then
          match v with
          | .str s => .ok (.str (bridgeParseDateTime ctx.absParse ctx.off ctx.now s false))
          | _ => .error "TypeError"
        else .ok .null
      | none => .ok .null
    match patch with
    | .error e => successFalseJson e
    | .ok startPatch =>
      let patch2 : Except String Json :=
        match jsLookup ufields "end_time" with
        | some v =>
          if jsTruthy v then
            match v with
            | .str s => .ok (.str (bridgeParseDateTime ctx.absParse ctx.off ctx.now s false))
            | _ => .error "TypeError"
          else .ok .null
        | none => .ok .null
      match patch2 with
      | .error e => successFalseJson e
      | .ok endPatch =>
        let res := ctx.fx.updateEvent (jsDisplayOpt (jsGet args "event_id"))
          (.obj [("summary", (jsLookup ufields "title").getD .null),
                 ("location", (jsLookup ufields "location").getD .null),
                 ("description", (jsLookup ufields "description").getD .null),
                 ("start", startPatch), ("end", endPatch)])
        .obj [("success", .bool res.success),
          ("message", .str (if res.success then "Updated event"
            else "Failed: " ++ jsDisplayOpt (Option.map Json.str res.error))),
          ("eventId", (jsGet args "event_id").getD .null)]
  | some .null => successFalseJson "TypeError"
  | some _ => successFalseJson "TypeError"
  | none => successFalseJson "TypeError"

/-- GPT4MCPBridge.handleSearchEvents: parseDateRange window, fetch,
title/description containment, slice. -/
def bridgeHandleSearchEvents (ctx : BridgeCtx) (args : Json) : Json :=
  match jsGet args "query" with
  | some (.str q) =>
    let rangeStr := match jsGet args "date_range" with
      | some (.str r) => r
      | _ => "this month"
    let maxResults : Nat := match jsGet args "max_results" with
      | some (.num n) => n.toNat
      | _ => 10
    let r := momentDateRange ctx.off ctx.now rangeStr
    match ctx.fx.getEvents r.1 r.2 with
    | .error e => successFalseJson e
    | .ok events =>
      let found := (events.filter (eventTextMatches q)).take maxResults
      .obj [("success", .bool true), ("query", .str q),
        ("count", .num found.length),
        ("events", .arr (found.map eventJson))]
  | _ => successFalseJson "TypeError"

/-- A tool-call entry of an assistant message: {id, function: {name,
arguments}} with the arguments as the raw JSON string the model
emitted. -/
structure BridgeToolCall where
  id : String
  name : String
  argsString : String

/-- GPT4MCPBridge.executeToolCall: JSON.parse the arguments string (a
SyntaxError propagates; its exact message text is host specific and
modelled by a fixed string), then switch on the name; an unknown name
throws. The five handlers catch internally and never throw. -/
def bridgeExecuteToolCall (ctx : BridgeCtx) (tc : BridgeToolCall) :
    Except String Json :=
  match jsonParse tc.argsString with
  | none => .error "Unexpected token in JSON"
  | some args =>
    match tc.name with
    | "list_calendar_events" => .ok (bridgeHandleListEvents ctx args)
    | "create_calendar_event" => .ok (bridgeHandleCreateEvent ctx args)
    | "delete_calendar_event" => .ok (bridgeHandleDeleteEvent ctx args)
    | "update_calendar_event" => .ok (bridgeHandleUpdateEvent ctx args)
    | "search_calendar_events" => .ok (bridgeHandleSearchEvents ctx args)
    | other => .error ("Unknown tool: " ++ other)

/-- One turn of the conversation array processMessage accumulates. -/
inductive ConvTurn where
  | system (content : String)
  | user (content : String)
  | assistant (content : Option String) (toolCalls : List BridgeToolCall)
  | toolTurn (toolCallId : String) (content : String)

/-- The for-loop over assistantMessage.tool_calls in processMessage.
A successful executeToolCall appends the stringified result as a tool
turn (the debug.logToolExecution call then re-parses the arguments,
which succeeds, since executeToolCall already parsed them). A throw
from executeToolCall is caught: the catch first appends the
success:false error result as a tool turn, and then calls
debug.logToolExecution(name, JSON.parse(arguments), null, error) —
when the arguments string is itself unparseable, that re-parse throws
inside the catch block and the exception escapes the loop (modelled as
.error), ending up in processMessage's outer catch. -/
def bridgeDispatchCalls (ctx : BridgeCtx) :
    List BridgeToolCall → List ConvTurn → Except String (List ConvTurn)
  | [], msgs => .ok msgs
  | tc :: rest, msgs =>
    match bridgeExecuteToolCall ctx tc with
    | .ok result =>
      bridgeDispatchCalls ctx rest (msgs ++ [.toolTurn tc.id (jsonStringify result)])
    | .error e =>
      match jsonParse tc.argsString with
      | none => .error "Unexpected token in JSON"
      | some _ =>
        bridgeDispatchCalls ctx rest
          (msgs ++ [.toolTurn tc.id (jsonStringify (successFalseJson e))])

/-- One step of the model oracle: the chat.completions.create call
either throws (transport/API error) or yields an assistant message
with optional content and tool calls. -/
inductive ModelStep where
  | apiThrow (msg : String)
  | reply (content : Option String) (toolCalls : List BridgeToolCall)

/-- The outcome of a processMessage run. -/
inductive RunResult where
  | completed (response : String) (iterations : Nat) (conversationLength : Nat)
  | apiError (error : String) (iterations : Nat)
  | maxedOut (maxIterations : Nat)

/-- Number of chat.completions.create calls the run performed (each
loop iteration performs exactly one, counted by the iteration
variable). -/
def RunResult.modelCallsMade : RunResult → Nat
  | .completed _ it _ => it
  | .apiError _ it => it
  | .maxedOut m => m

/-- The literal result object processMessage returns. -/
structure RunObject where
  success : Bool
  response : Option String
  error : Option String
  iterations : Nat

def maxedOutMsg (m : Nat) : String :=
  "Reached maximum iterations (" ++ toString m ++
    "). The task may be too complex or the AI got stuck in a loop."

def RunResult.toRunObject : RunResult → RunObject
  | .completed resp it _ => ⟨true, some resp, none, it⟩
  | .apiError e it => ⟨false, none, some ("GPT-4 API error: " ++ e), it⟩
  | .maxedOut m => ⟨false, none, some (maxedOutMsg m), m⟩

/-- assistantMessage.content || "Task completed successfully.". -/
def finalContent : Option String → String
  | some c => if c = "" then "Task completed successfully." else c
  | none => "Task completed successfully."

/-- The while (iteration < maxIterations) loop of processMessage. The
fuel is the number of remaining iterations (maxI - iteration), which
the loop decrements by exactly one per pass, so the fuel-exhausted case
is exactly the loop exiting at the ceiling. -/
def bridgeProcessGo (oracle : Nat → ModelStep) (ctx : BridgeCtx) (maxI : Nat) :
    Nat → Nat → List ConvTurn → RunResult
  | 0, _, _ => .maxedOut maxI
  | r + 1, iter, msgs =>
    match oracle (iter + 1) with
    | .apiThrow m => .apiError m (iter + 1)
    | .reply content tcs =>
      let msgs2 := msgs ++ [.assistant content tcs]
      if tcs.length > 0 then
        match bridgeDispatchCalls ctx tcs msgs2 with
        | .ok msgs3 => bridgeProcessGo oracle ctx maxI r (iter + 1) msgs3
        | .error e => .apiError e (iter + 1)
      else
        .completed (finalContent content) (iter + 1) msgs2.length

/-- GPT4MCPBridge.processMessage: seed with the system prompt and the
user message (the prompt text is a parameter; its content is grounding
for the model, not read by the loop), then iterate. -/
def bridgeProcessMessage (oracle : Nat → ModelStep) (ctx : BridgeCtx)
    (maxI : Nat) (sysContent userText : String) : RunResult :=
  bridgeProcessGo oracle ctx maxI maxI 0 [.system sysContent, .user userText]

/-! # Properties of the orchestration loop -/
/-- An adversarial model step: always an assistant message carrying at
least one tool call whose arguments string is well-formed JSON (so the
dispatch loop's logging re-parse cannot crash the run), never a
transport error. -/
def AdversarialStep : ModelStep → Prop
  | .apiThrow _ => False
  | .reply _ tcs => tcs ≠ [] ∧ ∀ tc ∈ tcs, (jsonParse tc.argsString).isSome = true

/-- A model oracle that always asks for one well-formed search call. -/
def advOracle : Nat → ModelStep :=
  fun _ => .reply none [⟨"call_1", "search_calendar_events", "\x7b\"query\":\"x\"\x7d"⟩]

def bridgeCtx0 : BridgeCtx := ⟨fxStandup, fun _ => none, 180, 1755687600000⟩

/-- Iteration 1 emits a tool call whose arguments string is not valid
JSON; iteration 2 would finish cleanly. -/
def malformedArgsOracle : Nat → ModelStep :=
  fun n =>
    if n = 1 then .reply none [⟨"call_1", "create_calendar_event", "\x7bnot json"⟩]
    else .reply (some "done") []

/-- Iteration 1 emits an unknown tool with well-formed (empty-object)
arguments; iteration 2 finishes. -/
def unknownToolOracle : Nat → ModelStep :=
  fun n =>
    if n = 1 then .reply none [⟨"call_1", "bogus_tool", "\x7b\x7d"⟩]
    else .reply (some "done") []

/-! # Theorems -/

/-! # Properties of the validation splice loop -/
lemma jsMember_of_ne_null (c : Json) (k : String) (h : c ≠ Json.null) :
    jsMember c k = .ok (jsGet c k) := by
  cases c <;> simp [jsMember, jsGet] at h ⊢

/-- The splice(i,1)/i-- loop computes an order-preserving filter: it is
exactly List.filter with the keep-condition tcKept on the part of the
array at or after the loop index, provided no candidate is null (a null
candidate makes the property access throw). -/
lemma spliceGo_eq_filter :
    ∀ (fuel : Nat) (xs : List Json) (i : Nat),
      fuel = xs.length - i → (∀ j ∈ xs.drop i, j ≠ Json.null) →
      spliceGo fuel xs i = .ok (xs.take i ++ (xs.drop i).filter tcKept) := by
  intro fuel
  induction fuel with
  | zero =>
    intro xs i hf _
    have hle : xs.length ≤ i := by omega
    rw [spliceGo, List.take_of_length_le hle, List.drop_eq_nil_of_le hle]
    simp
  | succ f ih =>
    intro xs i hf hnn
    have hi : i < xs.length := by omega
    have hdrop : xs[i] :: xs.drop (i + 1) = xs.drop i :=
      List.getElem_cons_drop xs i hi
    have hc : xs[i] ≠ Json.null := by
      apply hnn
      rw [← hdrop]; exact List.mem_cons_self _ _
    have htake : xs.take (i + 1) = xs.take i ++ [xs[i]] := by
      rw [List.take_succ, List.getElem?_eq_getElem hi]
      rfl
    have hnn1 : ∀ j ∈ xs.drop (i + 1), j ≠ Json.null := by
      intro j hj
      exact hnn j (by rw [← hdrop]; exact List.mem_cons_of_mem _ hj)
    rw [spliceGo]
    simp only [hi, dite_true]
    have hget : xs.get ⟨i, hi⟩ = xs[i] := rfl
    rw [hget, jsMember_of_ne_null _ _ hc, jsMember_of_ne_null _ _ hc]
    dsimp only
    by_cases hcond : (!(jsTruthyOpt (jsGet xs[i] "name") &&
        jsTruthyOpt (jsGet xs[i] "arguments"))) = true
    · rw [if_pos hcond]
      rw [ih xs (i + 1) (by omega) hnn1]
      rw [htake, ← hdrop, List.filter_cons]
      have hkept : tcKept xs[i] = true := by
        simp only [tcKept, tcStructBad, hcond, Bool.true_or]
      rw [hkept, List.append_assoc]
      rfl
    · rw [if_neg hcond]
      have hsb : tcStructBad xs[i] = false := by
        unfold tcStructBad
        cases hb : (!(jsTruthyOpt (jsGet xs[i] "name") &&
            jsTruthyOpt (jsGet xs[i] "arguments")))
        · rfl
        · exact absurd hb hcond
      by_cases hk : tcNameKnown xs[i] = true
      · rw [if_pos hk]
        rw [ih xs (i + 1) (by omega) hnn1]
        rw [htake, ← hdrop, List.filter_cons]
        have hkept : tcKept xs[i] = true := by
          simp only [tcKept, hk, Bool.or_true]
        rw [hkept, List.append_assoc]
        rfl
      · rw [if_neg hk]
        have herase : xs.eraseIdx i = xs.take i ++ xs.drop (i + 1) :=
          List.eraseIdx_eq_take_drop_succ xs i
        have hlen : (xs.take i).length = i := by
          rw [List.length_take]; omega
        have hfe : f = (xs.eraseIdx i).length - i := by
          rw [List.length_eraseIdx]; simp only [hi, if_pos]; omega
        have hdr : (xs.eraseIdx i).drop i = xs.drop (i + 1) := by
          rw [herase]; exact List.drop_left' hlen
        have htk : (xs.eraseIdx i).take i = xs.take i := by
          rw [herase]; exact List.take_left' hlen
        rw [ih (xs.eraseIdx i) i hfe (by intro j hj; rw [hdr] at hj; exact hnn1 j hj)]
        rw [hdr, htk, ← hdrop, List.filter_cons]
        have hkf : tcNameKnown xs[i] = false := by
          cases hb : tcNameKnown xs[i]
          · rfl
          · exact absurd hb hk
        have hkept : tcKept xs[i] = false := by
          simp only [tcKept, hsb, hkf, Bool.or_false]
        rw [hkept]
        rfl

/-- C2, counterexample: a candidate call named create_calendar_event
whose arguments object is missing the schema-required field "title" is
kept by the validation loop and handed on, contradicting the claim that
calls with missing required fields are dropped. The validator performs
no required-field check at all. -/
theorem validator_keeps_call_missing_required_field :
    validateToolCalls
        [Json.obj [("name", Json.str "create_calendar_event"),
                   ("arguments", Json.obj [])]] =
      .ok [Json.obj [("name", Json.str "create_calendar_event"),
                     ("arguments", Json.obj [])]]
    ∧ "title" ∈ mcpRequiredFields "create_calendar_event"
    ∧ jsGet (Json.obj [("name", Json.str "create_calendar_event"),
                       ("arguments", Json.obj [])]) "arguments" =
        some (Json.obj [])
    ∧ jsGet (Json.obj []) "title" = none :=
  ⟨rfl, by decide, rfl, rfl⟩

/-- C2, amended: over any list of non-null candidate calls, the
validation loop of parseToolResponse is exactly the order-preserving
filter keeping a candidate iff it fails the structure check
(!name || !arguments, such candidates are logged but kept) or its name
is one of the five catalog tool names; in particular every
well-structured candidate whose name is unknown is dropped, and no
required-field validation is performed. A null candidate instead makes
the loop throw (caught upstream as the overall fallback). -/
theorem validator_is_exact_name_filter (xs : List Json)
    (hnn : ∀ j ∈ xs, j ≠ Json.null) :
    validateToolCalls xs = .ok (xs.filter tcKept)
    ∧ ∀ c ∈ xs.filter tcKept, tcStructBad c = false → tcNameKnown c = true := by
  constructor
  · have h := spliceGo_eq_filter xs.length xs 0 (by omega) (by simpa using hnn)
    simpa [validateToolCalls] using h
  · intro c hc hs
    have := List.of_mem_filter hc
    simp [tcKept, hs] at this
    exact this

/-- Witness for validator_is_exact_name_filter at a concrete two-call
list: the known-name call survives, the unknown-name call is dropped. -/
theorem validator_is_exact_name_filter_witness :
    validateToolCalls
        [Json.obj [("name", Json.str "search_calendar_events"),
                   ("arguments", Json.obj [("query", Json.str "x")])],
         Json.obj [("name", Json.str "bogus_tool"),
                   ("arguments", Json.obj [])]] =
      .ok ([Json.obj [("name", Json.str "search_calendar_events"),
                      ("arguments", Json.obj [("query", Json.str "x")])],
            Json.obj [("name", Json.str "bogus_tool"),
                      ("arguments", Json.obj [])]].filter tcKept)
    ∧ ∀ c ∈ [Json.obj [("name", Json.str "search_calendar_events"),
                       ("arguments", Json.obj [("query", Json.str "x")])],
             Json.obj [("name", Json.str "bogus_tool"),
                       ("arguments", Json.obj [])]].filter tcKept,
        tcStructBad c = false → tcNameKnown c = true :=
  validator_is_exact_name_filter _ (by
    intro j hj
    rcases List.mem_cons.mp hj with rfl | hj2
    · exact fun h => Json.noConfusion h
    · rcases List.mem_cons.mp hj2 with rfl | hj3
      · exact fun h => Json.noConfusion h
      · exact absurd hj3 (List.not_mem_nil j))

/-- C4, counterexample: on a text whose first balanced brace span is a
well-formed payload with intent "x" but which contains a later closing
brace, the greedy regex of parseToolResponse grabs first-brace-to-last-
brace, JSON.parse of that larger span throws, and the function degrades
to the intent-"other" fallback — it does not extract the first balanced
span as the claim states. -/
theorem extractor_greedy_span_not_first_balanced :
    parseToolResponse "\x7b\"intent\":\"x\"\x7d \x7b\x7d" =
      ⟨"other", none, [], "\x7b\"intent\":\"x\"\x7d \x7b\x7d"⟩
    ∧ extractSpan "\x7b\"intent\":\"x\"\x7d \x7b\x7d" =
        some "\x7b\"intent\":\"x\"\x7d \x7b\x7d"
    ∧ firstBalancedSpan "\x7b\"intent\":\"x\"\x7d \x7b\x7d" =
        some "\x7b\"intent\":\"x\"\x7d"
    ∧ (jsonParse "\x7b\"intent\":\"x\"\x7d").map intentField = some "x" :=
  ⟨rfl, rfl, rfl, rfl⟩

/-- C4, amended: parseToolResponse is total and never throws; it
extracts the span from the first opening brace to the last closing brace
of the text (the greedy regex), not the first balanced span; whenever no
such span exists or JSON.parse of the extracted span throws, it returns
zero tool calls with intent "other" and the entire text as the plain
natural-language answer. -/
theorem parse_tool_response_fallback (s : String)
    (h : extractSpan s = none ∨
         ∃ sp, extractSpan s = some sp ∧ jsonParse sp = none) :
    parseToolResponse s = ⟨"other", none, [], s⟩ := by
  rcases h with h | ⟨sp, hsp, hparse⟩
  · rw [parseToolResponse, h]; rfl
  · rw [parseToolResponse, hsp]
    dsimp only
    rw [hparse]
    rfl

/-- Witness for parse_tool_response_fallback on a plain chat message
with no braces. -/
theorem parse_tool_response_fallback_witness :
    parseToolResponse "hello how are you" =
      ⟨"other", none, [], "hello how are you"⟩ :=
  parse_tool_response_fallback "hello how are you" (Or.inl rfl)

lemma daysInYear_pos (y : Nat) : 0 < daysInYear y := by
  unfold daysInYear; split <;> omega

lemma daysInYear_ge (y : Nat) : 365 ≤ daysInYear y := by
  unfold daysInYear; split <;> omega

lemma sumYearsFrom_succ_left (y k : Nat) :
    sumYearsFrom y (k + 1) = daysInYear y + sumYearsFrom (y + 1) k := by
  induction k with
  | zero => simp [sumYearsFrom]
  | succ k ih =>
    rw [sumYearsFrom, ih, sumYearsFrom]
    have : y + 1 + k = y + (k + 1) := by omega
    rw [this]
    omega

lemma sumYearsFrom_mono (y : Nat) (k1 k2 : Nat) (h : k1 ≤ k2) :
    sumYearsFrom y k1 ≤ sumYearsFrom y k2 := by
  induction k2 with
  | zero =>
    have : k1 = 0 := by omega
    subst this
    exact Nat.le_refl _
  | succ k ih =>
    rcases Nat.lt_or_ge k1 (k + 1) with hlt | hge
    · have := ih (by omega)
      rw [sumYearsFrom]
      omega
    · have : k1 = k + 1 := by omega
      subst this
      exact Nat.le_refl _

lemma sumYearsFrom_lb (y : Nat) : ∀ k, 365 * k ≤ sumYearsFrom y k := by
  intro k
  induction k with
  | zero => simp [sumYearsFrom]
  | succ k ih =>
    rw [sumYearsFrom]
    have := daysInYear_ge (y + k)
    omega

lemma dayUpper_lb : 2930950 ≤ dayUpper := by
  have := sumYearsFrom_lb 1970 8030
  unfold dayUpper
  omega

lemma yearSplitF_spec :
    ∀ (fuel y n : Nat), n < fuel →
      ∃ k, yearSplitF fuel y n = (y + k, n - sumYearsFrom y k) ∧
        sumYearsFrom y k ≤ n ∧ n < sumYearsFrom y (k + 1) := by
  intro fuel
  induction fuel with
  | zero => intro y n h; omega
  | succ f ih =>
    intro y n h
    rw [yearSplitF]
    by_cases hn : n < daysInYear y
    · refine ⟨0, ?_, ?_, ?_⟩
      · rw [if_pos hn]; simp [sumYearsFrom]
      · simp [sumYearsFrom]
      · simpa [sumYearsFrom] using hn
    · rw [if_neg hn]
      have hd := daysInYear_pos y
      have hlt : n - daysInYear y < f := by omega
      obtain ⟨k, heq, hle, hlt2⟩ := ih (y + 1) (n - daysInYear y) hlt
      refine ⟨k + 1, ?_, ?_, ?_⟩
      · rw [heq, sumYearsFrom_succ_left]
        have h1 : y + (k + 1) = y + 1 + k := by omega
        have h2 : n - (daysInYear y + sumYearsFrom (y + 1) k) =
            n - daysInYear y - sumYearsFrom (y + 1) k := by omega
        rw [h1, h2]
      · rw [sumYearsFrom_succ_left]; omega
      · rw [sumYearsFrom_succ_left]; omega

lemma monthSplit_spec :
    ∀ (lens : List Nat) (d : Nat), d < lens.sum →
      ∃ j r, monthSplit lens d = (j, r) ∧ monthPrefixSum lens j + r = d ∧
        j < lens.length ∧ r < lens.getD j 0 := by
  intro lens
  induction lens with
  | nil => intro d h; simp at h
  | cons ml rest ih =>
    intro d h
    rw [monthSplit]
    by_cases hd : d < ml
    · refine ⟨0, d, ?_, ?_, ?_, ?_⟩
      · rw [if_pos hd]
      · simp [monthPrefixSum]
      · simp
      · simpa using hd
    · rw [if_neg hd]
      have hsum : d - ml < rest.sum := by
        simp [List.sum_cons] at h
        omega
      obtain ⟨j, r, heq, hpre, hlen, hget⟩ := ih (d - ml) hsum
      refine ⟨j + 1, r, ?_, ?_, ?_, ?_⟩
      · rw [heq]
      · rw [monthPrefixSum]; omega
      · simpa using hlen
      · simpa using hget

lemma monthLengths_sum (leap : Bool) :
    (monthLengths leap).sum = if leap then 366 else 365 := by
  cases leap <;> rfl

lemma daysInYear_eq_monthLengths_sum (y : Nat) :
    daysInYear y = (monthLengths (isLeapYear y)).sum := by
  rw [monthLengths_sum, daysInYear]

/-- Civil conversion inverts the day count on the modelled range, with
all component bounds needed by the ISO reader. -/
lemma civilOfDays_spec (n : Nat) (h : n < dayUpper) :
    1970 ≤ (civilOfDays n).1 ∧ (civilOfDays n).1 ≤ 9999 ∧
    1 ≤ (civilOfDays n).2.1 ∧ (civilOfDays n).2.1 ≤ 12 ∧
    1 ≤ (civilOfDays n).2.2 ∧
    (civilOfDays n).2.2 ≤
      (monthLengths (isLeapYear (civilOfDays n).1)).getD ((civilOfDays n).2.1 - 1) 0 ∧
    daysFromCivil (civilOfDays n).1 (civilOfDays n).2.1 (civilOfDays n).2.2 = n := by
  obtain ⟨k, heq, hle, hlt⟩ := yearSplitF_spec (n + 1) 1970 n (by omega)
  have hk : k < 8030 := by
    by_contra hk
    have := sumYearsFrom_mono 1970 8030 k (by omega)
    unfold dayUpper at h
    omega
  have hdoy : n - sumYearsFrom 1970 k < daysInYear (1970 + k) := by
    rw [sumYearsFrom] at hlt
    omega
  have hdoy2 : n - sumYearsFrom 1970 k < (monthLengths (isLeapYear (1970 + k))).sum := by
    rw [← daysInYear_eq_monthLengths_sum]
    exact hdoy
  obtain ⟨j, r, hmeq, hpre, hjlen, hget⟩ :=
    monthSplit_spec (monthLengths (isLeapYear (1970 + k))) (n - sumYearsFrom 1970 k) hdoy2
  have hclen : (monthLengths (isLeapYear (1970 + k))).length = 12 := by
    cases (isLeapYear (1970 + k)) <;> rfl
  have hciv : civilOfDays n = (1970 + k, j + 1, r + 1) := by
    unfold civilOfDays
    rw [heq]
    dsimp only
    rw [hmeq]
  rw [hciv]
  dsimp only
  refine ⟨by omega, by omega, by omega, by omega, by omega, by simpa using hget, ?_⟩
  unfold daysFromCivil
  have h1 : 1970 + k - 1970 = k := by omega
  have h2 : j + 1 - 1 = j := by omega
  have h3 : r + 1 - 1 = r := by omega
  rw [h1, h2, h3]
  omega

lemma readDigit_digitChar : ∀ d < 10, readDigit (digitChar d) = some d := by decide

lemma read2_pad2 (n : Nat) (h : n < 100) (rest : List Char) :
    read2 (pad2 n ++ rest) = some (n, rest) := by
  have h1 : n / 10 < 10 := by omega
  have h2 : n % 10 < 10 := by omega
  have hshape : pad2 n ++ rest = digitChar (n / 10) :: digitChar (n % 10) :: rest := by
    simp [pad2]
  rw [hshape, read2, readDigit_digitChar _ h1, readDigit_digitChar _ h2]
  dsimp only
  have : n / 10 * 10 + n % 10 = n := by omega
  rw [this]

lemma read4_pad4 (n : Nat) (h : n < 10000) (rest : List Char) :
    read4 (pad4 n ++ rest) = some (n, rest) := by
  have h1 : n / 100 < 100 := by omega
  have h2 : n % 100 < 100 := by omega
  rw [read4, pad4, List.append_assoc, read2_pad2 _ h1]
  dsimp only
  rw [read2_pad2 _ h2]
  dsimp only
  have : n / 100 * 100 + n % 100 = n := by omega
  rw [this]

lemma read3_pad3 (n : Nat) (h : n < 1000) (rest : List Char) :
    read3 (pad3 n ++ rest) = some (n, rest) := by
  have h1 : n / 100 < 10 := by omega
  have h2 : n % 100 < 100 := by omega
  have hshape : pad3 n ++ rest = digitChar (n / 100) :: (pad2 (n % 100) ++ rest) := by
    simp [pad3]
  rw [hshape, read3, readDigit_digitChar _ h1, read2_pad2 _ h2]
  dsimp only
  have : n / 100 * 100 + n % 100 = n := by omega
  rw [this]

lemma expectCh_self (c : Char) (rest : List Char) :
    expectCh c (c :: rest) = some rest := by
  simp [expectCh]

lemma replaceZ_cons_ne (c : Char) (h : c ≠ 'Z') (rest : List Char) :
    replaceZ (c :: rest) = c :: replaceZ rest := by
  rw [replaceZ, if_neg h]

lemma digitChar_ne_Z : ∀ d < 10, digitChar d ≠ 'Z' := by decide

lemma replaceZ_pad2 (n : Nat) (h : n < 100) (rest : List Char) :
    replaceZ (pad2 n ++ rest) = pad2 n ++ replaceZ rest := by
  have hshape : pad2 n ++ rest = digitChar (n / 10) :: digitChar (n % 10) :: rest := by
    simp [pad2]
  rw [hshape, replaceZ_cons_ne _ (digitChar_ne_Z _ (by omega)) _,
    replaceZ_cons_ne _ (digitChar_ne_Z _ (by omega)) _]
  simp [pad2]

lemma replaceZ_pad4 (n : Nat) (h : n < 10000) (rest : List Char) :
    replaceZ (pad4 n ++ rest) = pad4 n ++ replaceZ rest := by
  rw [pad4, List.append_assoc, replaceZ_pad2 _ (by omega), replaceZ_pad2 _ (by omega),
    List.append_assoc]

lemma replaceZ_pad3 (n : Nat) (h : n < 1000) (rest : List Char) :
    replaceZ (pad3 n ++ rest) = pad3 n ++ replaceZ rest := by
  have hshape : pad3 n ++ rest = digitChar (n / 100) :: (pad2 (n % 100) ++ rest) := by
    simp [pad3]
  rw [hshape, replaceZ_cons_ne _ (digitChar_ne_Z _ (by omega)) _,
    replaceZ_pad2 _ (by omega)]
  simp [pad3]

lemma monthLengths_getD_le (leap : Bool) (j : Nat) :
    (monthLengths leap).getD j 0 ≤ 31 := by
  by_cases hj : j < 12
  · interval_cases j <;> cases leap <;> decide
  · have hlen : (monthLengths leap).length ≤ j := by
      cases leap <;> simp [monthLengths] <;> omega
    rw [List.getD_eq_default _ _ hlen]
    omega

lemma replaceZ_single : replaceZ ['Z'] = '+' :: '0' :: '3' :: ':' :: '0' :: '0' :: [] := rfl

lemma readMsPart_dot (r : List Char) : readMsPart ('.' :: r) = read3 r := by
  rw [readMsPart]
  cases h : read3 r with
  | none => rfl
  | some v => cases v; rfl

lemma readOffset_p0300 : readOffset ('+' :: '0' :: '3' :: ':' :: '0' :: '0' :: []) = some 180 := rfl

set_option maxHeartbeats 1000000 in
lemma parse_relabeled_render (t : Nat) (h : t < msUpper) :
    parseIsoChars (replaceZ (renderIsoUtcChars t)) = some ((t : Int) - 10800000) := by
  have hdlt : t / 86400000 < dayUpper := by
    unfold msUpper at h
    omega
  have hspec := civilOfDays_spec (t / 86400000) hdlt
  rcases hcv : civilOfDays (t / 86400000) with ⟨y, m, d⟩
  rw [hcv] at hspec
  dsimp only at hspec
  obtain ⟨hy1, hy2, hm1, hm2, hd1, hd2, hback⟩ := hspec
  have hdle : d ≤ 31 := le_trans hd2 (monthLengths_getD_le _ _)
  have hhh : t % 86400000 / 3600000 ≤ 23 := by omega
  have hmi : t % 86400000 % 3600000 / 60000 ≤ 59 := by omega
  have hss : t % 86400000 % 3600000 % 60000 / 1000 ≤ 59 := by omega
  have hms : t % 86400000 % 3600000 % 60000 % 1000 ≤ 999 := by omega
  rw [renderIsoUtcChars]
  try dsimp only
  rw [hcv]
  try dsimp only
  simp only [List.append_assoc, List.cons_append]
  rw [replaceZ_pad4 y (by omega), replaceZ_cons_ne '-' (by decide),
    replaceZ_pad2 m (by omega), replaceZ_cons_ne '-' (by decide),
    replaceZ_pad2 d (by omega), replaceZ_cons_ne 'T' (by decide),
    replaceZ_pad2 (t % 86400000 / 3600000) (by omega), replaceZ_cons_ne ':' (by decide),
    replaceZ_pad2 (t % 86400000 % 3600000 / 60000) (by omega),
    replaceZ_cons_ne ':' (by decide),
    replaceZ_pad2 (t % 86400000 % 3600000 % 60000 / 1000) (by omega),
    replaceZ_cons_ne '.' (by decide),
    replaceZ_pad3 (t % 86400000 % 3600000 % 60000 % 1000) (by omega), replaceZ_single]
  rw [parseIsoChars, read4_pad4 y (by omega)]
  dsimp only
  rw [expectCh_self]
  dsimp only
  rw [read2_pad2 m (by omega)]
  dsimp only
  rw [expectCh_self]
  dsimp only
  rw [read2_pad2 d (by omega)]
  dsimp only
  rw [expectCh_self]
  dsimp only
  rw [read2_pad2 (t % 86400000 / 3600000) (by omega)]
  dsimp only
  rw [expectCh_self]
  dsimp only
  rw [read2_pad2 (t % 86400000 % 3600000 / 60000) (by omega)]
  dsimp only
  rw [expectCh_self]
  dsimp only
  rw [read2_pad2 (t % 86400000 % 3600000 % 60000 / 1000) (by omega)]
  dsimp only
  rw [readMsPart_dot, read3_pad3 (t % 86400000 % 3600000 % 60000 % 1000) (by omega)]
  dsimp only
  rw [readOffset_p0300]
  dsimp only
  rw [parseIsoFields, if_pos (by exact ⟨hy1, hm1, hm2, hd1, hd2, hhh, hmi, hss⟩)]
  rw [hback]
  have harith : t / 86400000 * 86400000 + t % 86400000 / 3600000 * 3600000 +
      t % 86400000 % 3600000 / 60000 * 60000 +
      t % 86400000 % 3600000 % 60000 / 1000 * 1000 +
      t % 86400000 % 3600000 % 60000 % 1000 = t := by omega
  rw [harith]
  exact congrArg some (by rw [Int.ofNat_eq_natCast]; norm_num)

/-- C9: addOneHour (GPT4MCPBridge and CalendarService, used to default a
created event's end time) adds one hour to the absolute instant, renders
the UTC clock reading with toISOString, then relabels the Z suffix as
+03:00. For every ISO-8601 input carrying a +03:00 offset (within the
modelled 1970–9999 instant range) the returned string therefore denotes
the input instant minus two hours, not the input instant plus 60
minutes. -/
theorem addOneHour_lands_two_hours_early (s : String) (t : Int)
    (hp : parseIso s = some t)
    (_hoff : List.isSuffixOf "+03:00".data s.data = true)
    (h0 : 0 ≤ t) (h1 : t + 3600000 < (msUpper : Int)) :
    ∃ out, addOneHour s = some out ∧
      parseIso out = some (t - 7200000) ∧
      parseIso out ≠ some (t + 3600000) := by
  have hn : ((t + 3600000).toNat : Int) = t + 3600000 :=
    Int.toNat_of_nonneg (by omega)
  have hlt : (t + 3600000).toNat < msUpper := by omega
  have hrt := parse_relabeled_render ((t + 3600000).toNat) hlt
  refine ⟨String.mk (replaceZ (renderIsoUtcChars (t + 3600000).toNat)), ?_, ?_, ?_⟩
  · rw [addOneHour, hp]
  · show parseIsoChars (String.mk (replaceZ (renderIsoUtcChars (t + 3600000).toNat))).data =
      some (t - 7200000)
    have hdata : (String.mk (replaceZ (renderIsoUtcChars (t + 3600000).toNat))).data =
        replaceZ (renderIsoUtcChars (t + 3600000).toNat) := rfl
    rw [hdata, hrt, hn]
    exact congrArg some (by omega)
  · show parseIsoChars (String.mk (replaceZ (renderIsoUtcChars (t + 3600000).toNat))).data ≠
      some (t + 3600000)
    have hdata : (String.mk (replaceZ (renderIsoUtcChars (t + 3600000).toNat))).data =
        replaceZ (renderIsoUtcChars (t + 3600000).toNat) := rfl
    rw [hdata, hrt, hn]
    intro hc
    have := Option.some.inj hc
    omega

/-- Witness for addOneHour_lands_two_hours_early at
2025-08-20T14:00:00+03:00 (epoch 1755687600000 ms). -/
theorem addOneHour_lands_two_hours_early_witness :
    ∃ out, addOneHour "2025-08-20T14:00:00+03:00" = some out ∧
      parseIso out = some ((1755687600000 : Int) - 7200000) ∧
      parseIso out ≠ some ((1755687600000 : Int) + 3600000) :=
  addOneHour_lands_two_hours_early "2025-08-20T14:00:00+03:00" 1755687600000
    rfl rfl (by norm_num)
    (by
      have hb := dayUpper_lb
      unfold msUpper
      omega)

/-! # Properties of the Date/Time Resolver -/
lemma momentStartOfDay_add_day (off e : Int) :
    momentStartOfDay off (e + 86400000) = momentStartOfDay off e + 86400000 := by
  unfold momentStartOfDay localOf
  omega

lemma momentEndOfDay_add_day (off e : Int) :
    momentEndOfDay off (e + 86400000) = momentEndOfDay off e + 86400000 := by
  unfold momentEndOfDay
  rw [momentStartOfDay_add_day]
  omega

/-- C5, counterexample: on an input where no relative keyword matches
and moment.tz cannot parse the string (oracle none, as for this
garbage input), the MCP server's parseDateTime returns null — an
invalid/empty value, not the current instant — while the bridge's
parseDateTime does fall back to the current instant. The claim, which
asserts the current-instant fallback for the resolver citing both
implementations, fails on the server one. -/
theorem mcp_resolver_yields_null_not_current_instant :
    mcpParseDateTime (fun _ => none) 180 1755687600000 "%%unparseable%%" false = none
    ∧ (none : Option String) ≠ some (momentToIso 1755687600000)
    ∧ bridgeParseDateTime (fun _ => none) 180 1755687600000 "%%unparseable%%" false =
        momentToIso 1755687600000 :=
  ⟨rfl, fun h => Option.noConfusion h, rfl⟩

/-- C5, amended: when no relative-date keyword matches and direct
parsing in the operating timezone fails, the bridge resolver
(gpt4-mcp-bridge.js) returns the current instant as a non-fatal
fallback, but the MCP server resolver (calendar-server.js) has no such
fallback and returns null (toISOString of an invalid moment); neither
throws. -/
theorem resolver_fallback_only_in_bridge
    (absParse : String → Option Int) (off now : Int) (s : String) (eod : Bool)
    (h1 : jsToLower s ≠ "today") (h2 : jsToLower s ≠ "tomorrow")
    (h3 : jsToLower s ≠ "yesterday")
    (h4 : jsIncludes (jsToLower s) "tomorrow" = false)
    (h5 : jsIncludes (jsToLower s) "today" = false)
    (h6 : absParse s = none) :
    bridgeParseDateTime absParse off now s eod = momentToIso now
    ∧ mcpParseDateTime absParse off now s eod = none := by
  constructor
  · unfold bridgeParseDateTime
    dsimp only
    rw [if_neg h1, if_neg h2, if_neg h3,
      if_neg (by simp [h4] : ¬(jsIncludes (jsToLower s) "tomorrow" = true)),
      if_neg (by simp [h5] : ¬(jsIncludes (jsToLower s) "today" = true)), h6]
  · unfold mcpParseDateTime
    dsimp only
    rw [if_neg h1, if_neg h2, if_neg h3, h6]
    cases eod <;> rfl

/-- Witness for resolver_fallback_only_in_bridge on a concrete garbage
string. -/
theorem resolver_fallback_only_in_bridge_witness :
    bridgeParseDateTime (fun _ => none) 180 1755687600000 "99:99 blorp" false =
      momentToIso 1755687600000
    ∧ mcpParseDateTime (fun _ => none) 180 1755687600000 "99:99 blorp" false = none :=
  resolver_fallback_only_in_bridge (fun _ => none) 180 1755687600000 "99:99 blorp" false
    (by decide) (by decide) (by decide) (by decide) (by decide) rfl

/-- C6, counterexample: resolving the supported relative expression
"today" (configured zone Asia/Jerusalem, offset +03:00 at the chosen
2025-08-20 instant) produces a toISOString rendering that ends in the
UTC designator Z and does not carry the configured +03:00 offset,
contradicting the claim that every resolved instant carries the
configured timezone's UTC offset. -/
theorem resolver_output_is_utc_not_offset_qualified :
    bridgeParseDateTime (fun _ => none) 180 1755687600000 "today" false =
      "2025-08-19T21:00:00.000Z"
    ∧ List.isSuffixOf "+03:00".data "2025-08-19T21:00:00.000Z".data = false
    ∧ List.isSuffixOf "Z".data "2025-08-19T21:00:00.000Z".data = true :=
  ⟨rfl, by decide, by decide⟩

/-- C6, amended: for the relative expressions today and tomorrow the
bridge resolver is a pure function of the zone-local day of the
current instant — so two calls within the same wall-clock second (a
fortiori the same local day) return the same ResolvedInstant, whatever
the absolute-parse oracle does — but the returned string is a UTC
(Z-suffixed) toISOString rendering, not a string carrying the
configured zone's offset. -/
theorem today_tomorrow_idempotent_and_utc
    (absParse absParse2 : String → Option Int) (off now now2 : Int) (eod : Bool)
    (hday : momentStartOfDay off now = momentStartOfDay off now2) :
    bridgeParseDateTime absParse off now "today" eod =
      bridgeParseDateTime absParse2 off now2 "today" eod
    ∧ bridgeParseDateTime absParse off now "tomorrow" eod =
      bridgeParseDateTime absParse2 off now2 "tomorrow" eod
    ∧ ∃ t, bridgeParseDateTime absParse off now "today" eod = renderIsoUtc t := by
  have htoday : jsToLower "today" = "today" := rfl
  have htom : jsToLower "tomorrow" = "tomorrow" := rfl
  refine ⟨?_, ?_, ?_⟩
  · unfold bridgeParseDateTime
    dsimp only
    rw [htoday]
    cases eod
    · simp only [if_true, if_pos rfl, Bool.false_eq_true, if_false, hday]
    · simp only [if_true, if_pos rfl, if_true, momentEndOfDay, hday]
  · unfold bridgeParseDateTime
    dsimp only
    rw [htom]
    have hne : ("tomorrow" : String) ≠ "today" := by decide
    rw [if_neg hne, if_pos rfl, if_neg hne, if_pos rfl]
    have hd2 : momentStartOfDay off (now + 86400000) =
        momentStartOfDay off (now2 + 86400000) := by
      rw [momentStartOfDay_add_day, momentStartOfDay_add_day, hday]
    cases eod
    · simp only [Bool.false_eq_true, if_false, hd2]
    · simp only [if_true, momentEndOfDay, hd2]
  · unfold bridgeParseDateTime
    dsimp only
    rw [htoday, if_pos rfl]
    cases eod
    · exact ⟨(momentStartOfDay off now).toNat, rfl⟩
    · exact ⟨(momentEndOfDay off now).toNat, rfl⟩

/-- Witness for today_tomorrow_idempotent_and_utc: two instants inside
the same wall-clock second (differing in milliseconds) resolve
identically. -/
theorem today_tomorrow_idempotent_and_utc_witness :
    bridgeParseDateTime (fun _ => none) 180 1755687600000 "today" false =
      bridgeParseDateTime (fun _ => some 7) 180 1755687600456 "today" false
    ∧ bridgeParseDateTime (fun _ => none) 180 1755687600000 "tomorrow" false =
      bridgeParseDateTime (fun _ => some 7) 180 1755687600456 "tomorrow" false
    ∧ ∃ t, bridgeParseDateTime (fun _ => none) 180 1755687600000 "today" false =
        renderIsoUtc t :=
  today_tomorrow_idempotent_and_utc (fun _ => none) (fun _ => some 7)
    180 1755687600000 1755687600456 false rfl

/-! # Properties of the MCP server's delete/update paths -/
lemma mcpRequest_delete_eq (fx : CalendarStoreFixture)
    (absParse : String → Option Int) (envDate envTime : String → String)
    (off now : Int) (args : Json) :
    mcpHandleRequestToolsCall fx absParse envDate envTime off now
        "delete_calendar_event" args =
      (match mcpHandleDeleteEvent fx off now args with
       | (.ok j, dels) => (⟨jsonStringify j, false⟩, dels)
       | (.error e, dels) => (⟨"Error: " ++ e, true⟩, dels)) := rfl

lemma mcpRequest_update_eq (fx : CalendarStoreFixture)
    (absParse : String → Option Int) (envDate envTime : String → String)
    (off now : Int) (args : Json) :
    mcpHandleRequestToolsCall fx absParse envDate envTime off now
        "update_calendar_event" args =
      ((match mcpHandleUpdateEvent fx absParse off now args with
        | .ok j => ⟨jsonStringify j, false⟩
        | .error e => ⟨"Error: " ++ e, true⟩), []) := rfl

lemma mcpFind_none (fx : CalendarStoreFixture) (off now : Int)
    (identifier : String) (evs : List GEvent)
    (hid : fx.byId identifier = none)
    (hev : fx.getEvents (momentDateRange off now "this month").1
      (momentDateRange off now "this month").2 = .ok evs)
    (hnm : ∀ ev ∈ evs, summaryMatches identifier ev = false) :
    mcpFindEventByIdentifier fx off now identifier = .ok none := by
  rw [mcpFindEventByIdentifier, hid]
  dsimp only
  rw [hev]
  dsimp only
  rw [List.find?_eq_none.mpr]
  intro ev hev2
  simp [hnm ev hev2]

/-- C7: when the identifier of a delete or update call is not a
store-assigned id (the events.get lookup fails) and no event in the
current-month search window has a title containing it, the call is
answered with an in-band Event-not-found tool error (isError content
returned by handleRequest's catch) — never an exception to the caller —
and the store's deleteEvent is never invoked. -/
theorem unresolved_identifier_yields_tool_error (fx : CalendarStoreFixture)
    (absParse : String → Option Int) (envDate envTime : String → String)
    (off now : Int) (identifier : String) (args argsU : Json) (evs : List GEvent)
    (hid : fx.byId identifier = none)
    (hev : fx.getEvents (momentDateRange off now "this month").1
      (momentDateRange off now "this month").2 = .ok evs)
    (hnm : ∀ ev ∈ evs, summaryMatches identifier ev = false)
    (hargs : jsGet args "event_identifier" = some (.str identifier))
    (hconf : jsTruthy (confirmationOf args) = true)
    (hargsU : jsGet argsU "event_identifier" = some (.str identifier)) :
    mcpHandleRequestToolsCall fx absParse envDate envTime off now
        "delete_calendar_event" args =
      (⟨"Error: Event not found: " ++ identifier, true⟩, [])
    ∧ mcpHandleRequestToolsCall fx absParse envDate envTime off now
        "update_calendar_event" argsU =
      (⟨"Error: Event not found: " ++ identifier, true⟩, []) := by
  have hfind := mcpFind_none fx off now identifier evs hid hev hnm
  constructor
  · rw [mcpRequest_delete_eq]
    rw [mcpHandleDeleteEvent, if_neg (by simp [hconf]), hargs]
    dsimp only
    rw [hfind]
    rfl
  · rw [mcpRequest_update_eq]
    rw [mcpHandleUpdateEvent, hargsU]
    dsimp only
    rw [hfind]
    rfl

/-- Witness for unresolved_identifier_yields_tool_error: the identifier
ghost lunch matches nothing in the month window. -/
theorem unresolved_identifier_yields_tool_error_witness :
    mcpHandleRequestToolsCall fxStandup (fun _ => none) (fun s => s) (fun s => s)
        180 1755687600000 "delete_calendar_event"
        (.obj [("event_identifier", .str "ghost lunch")]) =
      (⟨"Error: Event not found: ghost lunch", true⟩, [])
    ∧ mcpHandleRequestToolsCall fxStandup (fun _ => none) (fun s => s) (fun s => s)
        180 1755687600000 "update_calendar_event"
        (.obj [("event_identifier", .str "ghost lunch"),
               ("updates", .obj [("title", .str "x")])]) =
      (⟨"Error: Event not found: ghost lunch", true⟩, []) :=
  unresolved_identifier_yields_tool_error fxStandup (fun _ => none)
    (fun s => s) (fun s => s) 180 1755687600000 "ghost lunch"
    (.obj [("event_identifier", .str "ghost lunch")])
    (.obj [("event_identifier", .str "ghost lunch"),
           ("updates", .obj [("title", .str "x")])])
    [⟨"e2", some "standup", none, none, none, none⟩]
    rfl rfl
    (by
      intro ev hev
      rcases List.mem_cons.mp hev with rfl | hnil
      · decide
      · exact absurd hnil (List.not_mem_nil ev))
    rfl rfl rfl

lemma jsLookup_append_single (fs : List (String × Json)) (c k : String) (v : Json) :
    jsLookup (fs ++ [(c, v)]) k = if c = k then some v else jsLookup fs k := by
  induction fs with
  | nil =>
    rw [List.nil_append, jsLookup, jsLookup]
    rfl
  | cons p rest ih =>
    rcases p with ⟨k1, v1⟩
    rw [List.cons_append, jsLookup, ih, jsLookup]
    by_cases hc : c = k
    · rw [if_pos hc, if_pos hc]
    · rw [if_neg hc, if_neg hc]

lemma mcpHandleDeleteEvent_congr (fx : CalendarStoreFixture) (off now : Int)
    (a1 a2 : Json)
    (h1 : confirmationOf a1 = confirmationOf a2)
    (h2 : jsGet a1 "event_identifier" = jsGet a2 "event_identifier") :
    mcpHandleDeleteEvent fx off now a1 = mcpHandleDeleteEvent fx off now a2 := by
  rw [mcpHandleDeleteEvent, mcpHandleDeleteEvent, h1, h2]

/-- C10: a delete_calendar_event call whose arguments carry a falsy
confirmation is answered with the in-band error Event deletion requires
confirmation and the store's deleteEvent is never invoked (the returned
delete trace is empty, so the store state is untouched); when the
confirmation property is absent, the destructuring default makes it
true and the handler behaves exactly as with an explicit true. -/
theorem delete_requires_confirmation (fx : CalendarStoreFixture)
    (absParse : String → Option Int) (envDate envTime : String → String)
    (off now : Int) (args : Json) :
    (jsTruthy (confirmationOf args) = false →
      mcpHandleRequestToolsCall fx absParse envDate envTime off now
          "delete_calendar_event" args =
        (⟨"Error: Event deletion requires confirmation", true⟩, []))
    ∧ (jsGet args "confirmation" = none → confirmationOf args = .bool true)
    ∧ (jsGet args "confirmation" = none →
        mcpHandleDeleteEvent fx off now args =
          mcpHandleDeleteEvent fx off now (withConfirmationTrue args)) := by
  refine ⟨?_, ?_, ?_⟩
  · intro hfalse
    rw [mcpRequest_delete_eq, mcpHandleDeleteEvent, if_pos hfalse]
    rfl
  · intro habs
    rw [confirmationOf, habs]
  · intro habs
    apply mcpHandleDeleteEvent_congr
    · cases args with
      | obj fs =>
        rw [confirmationOf, habs, withConfirmationTrue]
        rw [confirmationOf]
        have : jsGet (Json.obj (fs ++ [("confirmation", Json.bool true)]))
            "confirmation" = some (.bool true) := by
          rw [jsGet, jsLookup_append_single, if_pos rfl]
        rw [this]
      | null => rfl
      | bool b => rfl
      | num n => rfl
      | str s => rfl
      | arr xs => rfl
    · cases args with
      | obj fs =>
        rw [withConfirmationTrue, jsGet, jsGet, jsLookup_append_single,
          if_neg (by decide)]
      | null => rfl
      | bool b => rfl
      | num n => rfl
      | str s => rfl
      | arr xs => rfl

/-- Witness for delete_requires_confirmation: with confirmation false
the deletion is refused and no delete reaches the store; the same call
without the confirmation property resolves the event by title and
deletes it (trace e2, non-error response). -/
theorem delete_requires_confirmation_witness :
    mcpHandleRequestToolsCall fxStandup (fun _ => none) (fun s => s) (fun s => s)
        180 1755687600000 "delete_calendar_event"
        (.obj [("event_identifier", .str "standup"),
               ("confirmation", .bool false)]) =
      (⟨"Error: Event deletion requires confirmation", true⟩, [])
    ∧ (mcpHandleRequestToolsCall fxStandup (fun _ => none) (fun s => s) (fun s => s)
        180 1755687600000 "delete_calendar_event"
        (.obj [("event_identifier", .str "standup")])).2 = ["e2"]
    ∧ (mcpHandleRequestToolsCall fxStandup (fun _ => none) (fun s => s) (fun s => s)
        180 1755687600000 "delete_calendar_event"
        (.obj [("event_identifier", .str "standup")])).1.isError = false :=
  ⟨(delete_requires_confirmation fxStandup (fun _ => none) (fun s => s) (fun s => s)
      180 1755687600000
      (.obj [("event_identifier", .str "standup"),
             ("confirmation", .bool false)])).1 rfl,
   rfl, rfl⟩

lemma str_append_ne_empty (a b : String) (h : a.data ≠ []) : a ++ b ≠ "" := by
  intro hc
  have hd : (a ++ b).data = a.data ++ b.data := String.data_append a b
  rw [hc] at hd
  have : a.data ++ b.data = [] := hd.symm
  rcases List.append_eq_nil.mp this with ⟨h1, _⟩
  exact h h1

lemma renderResultLine_ne_empty (localeShow : Option Json → String)
    (intent : String) (r : MCPToolResult) :
    renderResultLine localeShow intent r ≠ "" := by
  cases r with
  | err m =>
    rw [renderResultLine]
    exact str_append_ne_empty _ _ (by decide)
  | resp txt =>
    rw [renderResultLine]
    cases hp : jsonParse txt with
    | none => dsimp only; decide
    | some data =>
      dsimp only
      by_cases hs : jsTruthyOpt (jsGet data "success") = true
      · rw [if_pos hs]
        by_cases h1 : intent = "create_event"
        · rw [if_pos h1]; exact str_append_ne_empty _ _ (by decide)
        · rw [if_neg h1]
          by_cases h2 : intent = "edit_event"
          · rw [if_pos h2]; exact str_append_ne_empty _ _ (by decide)
          · rw [if_neg h2]
            by_cases h3 : intent = "delete_event"
            · rw [if_pos h3]; exact str_append_ne_empty _ _ (by decide)
            · rw [if_neg h3]
              by_cases h4 : intent = "query_events"
              · rw [if_pos h4]
                cases hev : jsGet data "events" with
                | none => dsimp only; decide
                | some v =>
                  cases v with
                  | arr es =>
                    dsimp only
                    by_cases hlen : es.length > 0
                    · rw [if_pos hlen]
                      simp only [String.append_assoc]
                      exact str_append_ne_empty _ _ (by decide)
                    · rw [if_neg hlen]; decide
                  | str s =>
                    dsimp only
                    by_cases hes : s ≠ ""
                    · rw [if_pos hes]; decide
                    · rw [if_neg hes]; decide
                  | null => dsimp only; decide
                  | bool b => dsimp only; decide
                  | num n => dsimp only; decide
                  | obj fs => dsimp only; decide
              · rw [if_neg h4]
                exact str_append_ne_empty _ _ (by decide)
      · rw [if_neg hs]
        exact str_append_ne_empty _ _ (by decide)

lemma joinNewline_ne_empty (L : List String) (hne : L ≠ [])
    (h : ∀ s ∈ L, s ≠ "") : joinNewline L ≠ "" := by
  match L with
  | [] => exact absurd rfl hne
  | [x] =>
    rw [joinNewline]
    exact h x (List.mem_singleton.mpr rfl)
  | x :: y :: rest =>
    rw [joinNewline]
    apply str_append_ne_empty
    intro hc
    have hx : x ≠ "" := h x (List.mem_cons_self _ _)
    apply hx
    have : x.data = [] := by
      have hd : (x ++ "\n").data = x.data ++ ['\n'] := String.data_append x "\n"
      rw [hc] at hd
      exact absurd hd.symm (by simp)
    cases x with
    | mk ds => simp_all

/-- C8: formatResponse maps each result of the run to one line (the
intent-specific phrase for success payloads, the error line for
failures), joined with newlines in the order of the input results, and
never returns the empty string: an empty result list yields the generic
no-action message, and any nonempty list joins per-result nonempty
lines. -/
theorem format_response_ordered_and_nonempty
    (localeShow : Option Json → String) (intent : String)
    (toolResults : List MCPToolResult) :
    formatResponse localeShow intent toolResults =
      (if toolResults.isEmpty then "I couldn't process your request."
       else joinNewline (toolResults.map (renderResultLine localeShow intent)))
    ∧ formatResponse localeShow intent toolResults ≠ "" := by
  have hjoin : toolResults ≠ [] →
      joinNewline (toolResults.map (renderResultLine localeShow intent)) ≠ "" := by
    intro hne
    apply joinNewline_ne_empty
    · simpa using hne
    · intro s hs
      rcases List.mem_map.mp hs with ⟨r, _, rfl⟩
      exact renderResultLine_ne_empty localeShow intent r
  constructor
  · rw [formatResponse]
    by_cases he : toolResults.isEmpty
    · rw [if_pos he, if_pos he]
    · rw [if_neg he, if_neg he]
      dsimp only
      rw [if_neg (hjoin (by simpa using he))]
  · rw [formatResponse]
    by_cases he : toolResults.isEmpty
    · rw [if_pos he]; decide
    · rw [if_neg he]
      dsimp only
      rw [if_neg (hjoin (by simpa using he))]
      exact hjoin (by simpa using he)

lemma dispatch_ok_of_parseable (ctx : BridgeCtx) :
    ∀ (tcs : List BridgeToolCall) (msgs : List ConvTurn),
      (∀ tc ∈ tcs, (jsonParse tc.argsString).isSome = true) →
      ∃ msgs2, bridgeDispatchCalls ctx tcs msgs = .ok msgs2 := by
  intro tcs
  induction tcs with
  | nil => intro msgs _; exact ⟨msgs, rfl⟩
  | cons tc rest ih =>
    intro msgs h
    rw [bridgeDispatchCalls]
    cases hex : bridgeExecuteToolCall ctx tc with
    | ok result =>
      dsimp only
      exact ih _ (fun t ht => h t (List.mem_cons_of_mem _ ht))
    | error e =>
      dsimp only
      have hiss := h tc (List.mem_cons_self _ _)
      rcases Option.isSome_iff_exists.mp hiss with ⟨v, hv⟩
      rw [hv]
      exact ih _ (fun t ht => h t (List.mem_cons_of_mem _ ht))

lemma bridgeProcessGo_calls_le (oracle : Nat → ModelStep) (ctx : BridgeCtx)
    (maxI : Nat) :
    ∀ (r iter : Nat) (msgs : List ConvTurn), iter + r = maxI →
      (bridgeProcessGo oracle ctx maxI r iter msgs).modelCallsMade ≤ maxI := by
  intro r
  induction r with
  | zero =>
    intro iter msgs _
    rw [bridgeProcessGo]
    exact Nat.le_refl _
  | succ r ih =>
    intro iter msgs hinv
    rw [bridgeProcessGo]
    cases oracle (iter + 1) with
    | apiThrow m =>
      dsimp only [RunResult.modelCallsMade]
      omega
    | reply content tcs =>
      dsimp only
      by_cases hl : tcs.length > 0
      · rw [if_pos hl]
        cases bridgeDispatchCalls ctx tcs (msgs ++ [.assistant content tcs]) with
        | ok msgs3 => exact ih (iter + 1) msgs3 (by omega)
        | error e =>
          dsimp only [RunResult.modelCallsMade]
          omega
      · rw [if_neg hl]
        dsimp only [RunResult.modelCallsMade]
        omega

lemma bridgeProcessGo_adversarial (oracle : Nat → ModelStep) (ctx : BridgeCtx)
    (maxI : Nat) (hadv : ∀ n, AdversarialStep (oracle n)) :
    ∀ (r iter : Nat) (msgs : List ConvTurn),
      bridgeProcessGo oracle ctx maxI r iter msgs = .maxedOut maxI := by
  intro r
  induction r with
  | zero => intro iter msgs; rfl
  | succ r ih =>
    intro iter msgs
    rw [bridgeProcessGo]
    have hstep := hadv (iter + 1)
    cases ho : oracle (iter + 1) with
    | apiThrow m =>
      rw [ho] at hstep
      exact hstep.elim
    | reply content tcs =>
      rw [ho] at hstep
      obtain ⟨hne, hp⟩ := hstep
      dsimp only
      rw [if_pos (by simpa [List.length_pos] using hne)]
      obtain ⟨msgs3, hm3⟩ :=
        dispatch_ok_of_parseable ctx tcs (msgs ++ [.assistant content tcs]) hp
      rw [hm3]
      exact ih (iter + 1) msgs3

/-- C1: for every model oracle (adversarial ones included), store
fixture and iteration ceiling, the iterate-call-observe loop of
processMessage makes at most maxIterations + 1 model calls and, being a
total function, terminates; when the run exits at the ceiling it
returns the failed result object — success:false, the explanatory
max-iterations error, and the iteration count — rather than throwing;
and an oracle that always answers with (well-formed) tool calls drives
every run to exactly that ceiling outcome. -/
theorem orchestrator_bounded_and_graceful (oracle : Nat → ModelStep)
    (ctx : BridgeCtx) (maxI : Nat) (sys usr : String) :
    (bridgeProcessMessage oracle ctx maxI sys usr).modelCallsMade ≤ maxI + 1
    ∧ (bridgeProcessMessage oracle ctx maxI sys usr = .maxedOut maxI →
        (bridgeProcessMessage oracle ctx maxI sys usr).toRunObject.success = false
        ∧ (bridgeProcessMessage oracle ctx maxI sys usr).toRunObject.error =
            some (maxedOutMsg maxI)
        ∧ (bridgeProcessMessage oracle ctx maxI sys usr).toRunObject.iterations = maxI)
    ∧ ((∀ n, AdversarialStep (oracle n)) →
        bridgeProcessMessage oracle ctx maxI sys usr = .maxedOut maxI) := by
  refine ⟨?_, ?_, ?_⟩
  · have h := bridgeProcessGo_calls_le oracle ctx maxI maxI 0
      [.system sys, .user usr] (by omega)
    exact le_trans h (by omega)
  · intro h
    rw [bridgeProcessMessage] at h ⊢
    rw [h]
    exact ⟨rfl, rfl, rfl⟩
  · intro hadv
    exact bridgeProcessGo_adversarial oracle ctx maxI hadv maxI 0 _

/-- Witness for orchestrator_bounded_and_graceful under the relentless
tool-calling oracle with a ceiling of 2. -/
theorem orchestrator_bounded_and_graceful_witness :
    (bridgeProcessMessage advOracle bridgeCtx0 2 "s" "u").modelCallsMade ≤ 3
    ∧ bridgeProcessMessage advOracle bridgeCtx0 2 "s" "u" = .maxedOut 2
    ∧ (bridgeProcessMessage advOracle bridgeCtx0 2 "s" "u").toRunObject.success = false
    ∧ (bridgeProcessMessage advOracle bridgeCtx0 2 "s" "u").toRunObject.error =
        some (maxedOutMsg 2) := by
  have h := orchestrator_bounded_and_graceful advOracle bridgeCtx0 2 "s" "u"
  have hadv : ∀ n, AdversarialStep (advOracle n) := by
    intro n
    refine ⟨by simp, ?_⟩
    intro tc htc
    rcases List.mem_singleton.mp htc with rfl
    rfl
  have hmax := h.2.2 hadv
  exact ⟨h.1, hmax, (h.2.1 hmax).1, (h.2.1 hmax).2.1⟩

/-- C3: a tool call whose argumentsJSON is not valid JSON is NOT
absorbed as a per-call failure: executeToolCall's JSON.parse throws,
the dispatch loop's catch appends the error result but then re-parses
the same malformed string for debug.logToolExecution, throwing inside
the catch; the exception escapes to processMessage's outer catch and
the run ends after one iteration as a success:false GPT-4 API error.
By contrast a throw with parseable arguments (an unknown tool name) is
absorbed as a tool turn and the run completes normally — so the crash
is specific to the malformed-arguments path the catch block itself was
written to absorb. -/
theorem malformed_arguments_end_run_as_api_error :
    bridgeProcessMessage malformedArgsOracle bridgeCtx0 5 "sys" "add meeting" =
      .apiError "Unexpected token in JSON" 1
    ∧ (bridgeProcessMessage malformedArgsOracle bridgeCtx0 5 "sys"
        "add meeting").toRunObject.success = false
    ∧ (bridgeProcessMessage malformedArgsOracle bridgeCtx0 5 "sys"
        "add meeting").toRunObject.error =
        some ("GPT-4 API error: " ++ "Unexpected token in JSON")
    ∧ bridgeProcessMessage unknownToolOracle bridgeCtx0 5 "sys" "hi" =
        .completed "done" 2 5 :=
  ⟨rfl, rfl, rfl, rfl⟩
